import Mathlib

/-!
Verification of the chrometabs Pickle / session-file decoding stack.

This file gives a shallow embedding, in Lean 4, of the Python sources
pickle.py, session.py, tabnavigation.py and constants.py of the
chrometabs repository, together with theorems settling the frozen
claims about them.

Modelling conventions:
- Python byte buffers (bytes, bytearray, memoryview) are List Nat, one
  entry per byte; Python str values are List Nat of Unicode code points.
- The host is little-endian (sys.byteorder == "little"), so every
  byteorder_ branch of the source is resolved to the little-endian arm.
- Python int is Int where a value can be negative, Nat where the source
  guarantees nonnegativity.
- A Python function that can raise an uncaught exception is modelled as
  Except Unit, with Except.error () standing for the raised exception.
- In-place mutation of an object is modelled by threading the updated
  structure value through each operation.
-/

namespace Chrometabs

/-- AlignInt of pickle.py: rounds i up to the next multiple of alignment.
Python's percent operator on a positive divisor returns a nonnegative
remainder, which is Int.emod, the percent operator of Lean's Int. -/
def AlignInt (i alignment : Int) : Int :=
  i + (alignment - i % alignment) % alignment

/-- Nat specialisation of AlignInt, used where the aligned quantity is
known to be nonnegative (read-cursor advances, owned-buffer offsets). -/
def alignNat (n a : Nat) : Nat :=
  n + (a - n % a) % a

/-- Little-endian unsigned decoding of k bytes of l starting at off,
modelling struct.unpack_from with formats B, H, I, Q (missing bytes read
as 0, as they never occur on the paths the source exercises). -/
def readLE (l : List Nat) (off : Nat) : Nat → Nat
  | 0 => 0
  | k + 1 => l.getD off 0 + 256 * readLE l (off + 1) k

/-- Little-endian byte encoding of v on k bytes, modelling
int.to_bytes(k, sys.byteorder); callers check the range first. -/
def leBytes (v : Nat) : Nat → List Nat
  | 0 => []
  | k + 1 => v % 256 :: leBytes (v / 256) k

/-- Reinterpretation of a 32-bit unsigned value as signed (format i of
struct.unpack_from). -/
def toSigned32 (n : Nat) : Int :=
  if n % 4294967296 < 2147483648 then (n % 4294967296 : Int)
  else (n % 4294967296 : Int) - 4294967296

/-- Reinterpretation of a 16-bit unsigned value as signed (format h;
note ReadUInt16 of the source really unpacks a signed short). -/
def toSigned16 (n : Nat) : Int :=
  if n % 65536 < 32768 then (n % 65536 : Int)
  else (n % 65536 : Int) - 65536

/-- Reinterpretation of a 64-bit unsigned value as signed (format q). -/
def toSigned64 (n : Nat) : Int :=
  if n % 18446744073709551616 < 9223372036854775808 then (n % 18446744073709551616 : Int)
  else (n % 18446744073709551616 : Int) - 18446744073709551616

/-! UTF codecs, modelling the Python codecs utf-8, utf-16-le and
utf-32-le used by str.encode and bytes.decode in pickle.py. Encoders
take a list of Unicode scalar values; decoders are strict and return
none where Python's decoder would raise UnicodeDecodeError. Decoders
use an explicit fuel argument (one unit per consumed byte suffices). -/

/-- UTF-8 encoding of one code point. -/
def utf8Char (c : Nat) : List Nat :=
  if c < 128 then [c]
  else if c < 2048 then [192 + c / 64, 128 + c % 64]
  else if c < 65536 then [224 + c / 4096, 128 + c / 64 % 64, 128 + c % 64]
  else [240 + c / 262144, 128 + c / 4096 % 64, 128 + c / 64 % 64, 128 + c % 64]

/-- UTF-8 encoding of a string (str.encode with the utf-8 codec). -/
def utf8Encode (s : List Nat) : List Nat :=
  s.foldr (fun c acc => utf8Char c ++ acc) []

/-- Whether a byte is a UTF-8 continuation byte. -/
def isCont (b : Nat) : Bool :=
  128 ≤ b && b < 192

/-- Whether a code point is a valid Unicode scalar value (not a
surrogate, below 0x110000); Python's strict decoders reject others. -/
def isScalar (c : Nat) : Bool :=
  c < 1114112 && !(55296 ≤ c && c < 57344)

/-- Fuelled strict UTF-8 decoder (bytes.decode with the utf-8 codec);
none models UnicodeDecodeError. -/
def utf8DecodeF : Nat → List Nat → Option (List Nat)
  | _, [] => some []
  | 0, _ :: _ => none
  | fuel + 1, b :: rest =>
    if b < 128 then (utf8DecodeF fuel rest).map (b :: ·)
    else if 194 ≤ b && b ≤ 223 then
      match rest with
      | c1 :: rest1 =>
        if isCont c1 then (utf8DecodeF fuel rest1).map (((b - 192) * 64 + (c1 - 128)) :: ·)
        else none
      | [] => none
    else if 224 ≤ b && b ≤ 239 then
      match rest with
      | c1 :: c2 :: rest2 =>
        let c := (b - 224) * 4096 + (c1 - 128) * 64 + (c2 - 128)
        if isCont c1 && isCont c2 && 2048 ≤ c && isScalar c then
          (utf8DecodeF fuel rest2).map (c :: ·)
        else none
      | _ => none
    else if 240 ≤ b && b ≤ 244 then
      match rest with
      | c1 :: c2 :: c3 :: rest3 =>
        let c := (b - 240) * 262144 + (c1 - 128) * 4096 + (c2 - 128) * 64 + (c3 - 128)
        if isCont c1 && isCont c2 && isCont c3 && 65536 ≤ c && c < 1114112 then
          (utf8DecodeF fuel rest3).map (c :: ·)
        else none
      | _ => none
    else none

/-- Strict UTF-8 decoder entry point. -/
def utf8Decode (l : List Nat) : Option (List Nat) :=
  utf8DecodeF l.length l

/-- UTF-16 little-endian encoding of one code point (surrogate pair
above 0xFFFF). -/
def utf16Char (c : Nat) : List Nat :=
  if c < 65536 then [c % 256, c / 256]
  else
    let c' := c - 65536
    let hi := 55296 + c' / 1024
    let lo := 56320 + c' % 1024
    [hi % 256, hi / 256, lo % 256, lo / 256]

/-- UTF-16-LE encoding of a string. -/
def utf16Encode (s : List Nat) : List Nat :=
  s.foldr (fun c acc => utf16Char c ++ acc) []

/-- Fuelled strict UTF-16-LE decoder; none models UnicodeDecodeError
(odd byte count, lone surrogates). -/
def utf16DecodeF : Nat → List Nat → Option (List Nat)
  | _, [] => some []
  | 0, _ :: _ => none
  | fuel + 1, l =>
    match l with
    | b0 :: b1 :: rest =>
      let u := b0 + 256 * b1
      if u < 55296 || 57344 ≤ u then (utf16DecodeF fuel rest).map (u :: ·)
      else if u < 56320 then
        match rest with
        | c0 :: c1 :: rest2 =>
          let v := c0 + 256 * c1
          if 56320 ≤ v && v < 57344 then
            (utf16DecodeF fuel rest2).map ((65536 + (u - 55296) * 1024 + (v - 56320)) :: ·)
          else none
        | _ => none
      else none
    | _ => none

/-- Strict UTF-16-LE decoder entry point. -/
def utf16Decode (l : List Nat) : Option (List Nat) :=
  utf16DecodeF l.length l

/-- UTF-32-LE encoding of a string. -/
def utf32Encode (s : List Nat) : List Nat :=
  s.foldr (fun c acc => c % 256 :: c / 256 % 256 :: c / 65536 % 256 :: c / 16777216 % 256 :: acc) []

/-- Fuelled strict UTF-32-LE decoder; none models UnicodeDecodeError. -/
def utf32DecodeF : Nat → List Nat → Option (List Nat)
  | _, [] => some []
  | 0, _ :: _ => none
  | fuel + 1, l =>
    match l with
    | b0 :: b1 :: b2 :: b3 :: rest =>
      let c := b0 + 256 * b1 + 65536 * b2 + 16777216 * b3
      if isScalar c then (utf32DecodeF fuel rest).map (c :: ·)
      else none
    | _ => none

/-- Strict UTF-32-LE decoder entry point. -/
def utf32Decode (l : List Nat) : Option (List Nat) :=
  utf32DecodeF l.length l

/-! PickleIterator of pickle.py. The constructor takes
memoryview(pickle.data())[pickle.payload():] as bytes_, sets
read_ptr_ = 0 and read_end_ptr_ = len(bytes_); since read_end_ptr_ is
always the length of bytes_, only bytes_ and read_ptr_ are state. -/

/-- PickleIterator state: bytes_ and read_ptr_; read_end_ptr_ is
bytes_.length. -/
structure PickleIterator where
  bytes_ : List Nat
  readPtr : Nat
deriving Repr, DecidableEq

/-- Result of the string-reading methods, whose failure paths return a
bare Python False instead of a (status, value) tuple. A bare False makes
tuple unpacking at the call site raise TypeError; decodeErr stands for a
UnicodeDecodeError raised by bytes.decode. -/
inductive StrRead where
  | bareFalse
  | decodeErr
  | ok (s : List Nat)
deriving Repr, DecidableEq

namespace PickleIterator

/-- read_end_ptr_ of the source. -/
def readEnd (it : PickleIterator) : Nat :=
  it.bytes_.length

/-- Effective byte count of GetReadPointerAndAdvance: num_bytes is
multiplied by size_element when the latter is nonzero. -/
def effBytes (numBytes : Int) (sizeElement : Nat) : Int :=
  if sizeElement ≠ 0 then numBytes * sizeElement else numBytes

/-- GetReadPointerAndAdvance: on success returns the current read
offset and advances read_ptr_ by AlignInt(num_bytes, 4); on failure
(negative num_bytes, or fewer than num_bytes bytes remaining) returns
none and leaves the iterator untouched. The subtraction
read_end_ptr_ - read_ptr_ is Python int arithmetic, hence Int here. -/
def GetReadPointerAndAdvance (it : PickleIterator) (numBytes : Int)
    (sizeElement : Nat := 0) : Option Nat × PickleIterator :=
  if effBytes numBytes sizeElement < 0 ∨
      (it.readEnd : Int) - it.readPtr < effBytes numBytes sizeElement then (none, it)
  else (some it.readPtr,
    { it with readPtr := it.readPtr + alignNat (effBytes numBytes sizeElement).toNat 4 })

/-- SkipBytes. -/
def SkipBytes (it : PickleIterator) (numBytes : Int) : Bool × PickleIterator :=
  match it.GetReadPointerAndAdvance numBytes with
  | (none, it') => (false, it')
  | (some _, it') => (true, it')

/-- ReadBool (SizeOf.BOOL = 1, unpack format ?); the Python failure
tuple is (False, False), modelled as (false, false). -/
def ReadBool (it : PickleIterator) : (Bool × Bool) × PickleIterator :=
  match it.GetReadPointerAndAdvance 1 with
  | (none, it') => ((false, false), it')
  | (some off, it') => ((true, it.bytes_.getD off 0 ≠ 0), it')

/-- ReadInt (SizeOf.INT = 4, signed format i); the failure tuple
(False, False) is modelled as (false, 0), Python False being 0 as an
int. -/
def ReadInt (it : PickleIterator) : (Bool × Int) × PickleIterator :=
  match it.GetReadPointerAndAdvance 4 with
  | (none, it') => ((false, 0), it')
  | (some off, it') => ((true, toSigned32 (readLE it.bytes_ off 4)), it')

/-- ReadLong (SizeOf.LONG = 4, signed format l, same layout as i). -/
def ReadLong (it : PickleIterator) : (Bool × Int) × PickleIterator :=
  match it.GetReadPointerAndAdvance 4 with
  | (none, it') => ((false, 0), it')
  | (some off, it') => ((true, toSigned32 (readLE it.bytes_ off 4)), it')

/-- ReadUInt16 (SizeOf.UINT16 = 2; the source unpacks signed format h). -/
def ReadUInt16 (it : PickleIterator) : (Bool × Int) × PickleIterator :=
  match it.GetReadPointerAndAdvance 2 with
  | (none, it') => ((false, 0), it')
  | (some off, it') => ((true, toSigned16 (readLE it.bytes_ off 2)), it')

/-- ReadUInt32 (SizeOf.UINT32 = 4, unsigned format I). -/
def ReadUInt32 (it : PickleIterator) : (Bool × Int) × PickleIterator :=
  match it.GetReadPointerAndAdvance 4 with
  | (none, it') => ((false, 0), it')
  | (some off, it') => ((true, (readLE it.bytes_ off 4 : Int)), it')

/-- ReadInt64 (SizeOf.INT64 = 8, signed format q). -/
def ReadInt64 (it : PickleIterator) : (Bool × Int) × PickleIterator :=
  match it.GetReadPointerAndAdvance 8 with
  | (none, it') => ((false, 0), it')
  | (some off, it') => ((true, toSigned64 (readLE it.bytes_ off 8)), it')

/-- ReadUInt64 (SizeOf.UINT64 = 8, unsigned format Q). -/
def ReadUInt64 (it : PickleIterator) : (Bool × Int) × PickleIterator :=
  match it.GetReadPointerAndAdvance 8 with
  | (none, it') => ((false, 0), it')
  | (some off, it') => ((true, (readLE it.bytes_ off 8 : Int)), it')

/-- ReadBinaryString: a signed length prefix, then length raw bytes.
Both failure paths return a bare False. -/
def ReadBinaryString (it : PickleIterator) : StrRead × PickleIterator :=
  let ((status, length), it1) := it.ReadInt
  if status = false then (.bareFalse, it1)
  else
    match it1.GetReadPointerAndAdvance length with
    | (none, it2) => (.bareFalse, it2)
    | (some off, it2) =>
      if length ≠ 0 then (.ok ((it2.bytes_.drop off).take length.toNat), it2)
      else (.ok [], it2)

/-- ReadString: length prefix is the UTF-8 byte count; the slice of
length bytes is decoded as UTF-8. Both failure paths return a bare
False. -/
def ReadString (it : PickleIterator) : StrRead × PickleIterator :=
  let ((status, length), it1) := it.ReadInt
  if status = false then (.bareFalse, it1)
  else
    match it1.GetReadPointerAndAdvance length with
    | (none, it2) => (.bareFalse, it2)
    | (some off, it2) =>
      if length ≠ 0 then
        match utf8Decode ((it2.bytes_.drop off).take length.toNat) with
        | none => (.decodeErr, it2)
        | some s => (.ok s, it2)
      else (.ok [], it2)

/-- ReadWString: advances by length * SizeOf.UINT32 bytes and decodes
the slice of length * 4 bytes as UTF-32-LE. -/
def ReadWString (it : PickleIterator) : StrRead × PickleIterator :=
  let ((status, length), it1) := it.ReadInt
  if status = false then (.bareFalse, it1)
  else
    match it1.GetReadPointerAndAdvance length 4 with
    | (none, it2) => (.bareFalse, it2)
    | (some off, it2) =>
      if length ≠ 0 then
        match utf32Decode ((it2.bytes_.drop off).take (length * 4).toNat) with
        | none => (.decodeErr, it2)
        | some s => (.ok s, it2)
      else (.ok [], it2)

/-- ReadString16: advances by length * SizeOf.UINT16 bytes and decodes
the slice of length * 2 bytes as UTF-16-LE. -/
def ReadString16 (it : PickleIterator) : StrRead × PickleIterator :=
  let ((status, length), it1) := it.ReadInt
  if status = false then (.bareFalse, it1)
  else
    match it1.GetReadPointerAndAdvance length 2 with
    | (none, it2) => (.bareFalse, it2)
    | (some off, it2) =>
      if length ≠ 0 then
        match utf16Decode ((it2.bytes_.drop off).take (length * 2).toNat) with
        | none => (.decodeErr, it2)
        | some s => (.ok s, it2)
      else (.ok [], it2)

/-- ReadLength: ReadInt, additionally failing when the result is
negative. -/
def ReadLength (it : PickleIterator) : (Bool × Int) × PickleIterator :=
  let ((status, result), it1) := it.ReadInt
  ((status && decide (0 ≤ result), result), it1)

/-- ReadBytes; a negative length raises ValueError, modelled by
Except.error. The failure tuple (False, False) is modelled with an
empty byte list as its second component. -/
def ReadBytes (it : PickleIterator) (length : Int) :
    Except Unit ((Bool × List Nat) × PickleIterator) :=
  if length < 0 then .error ()
  else if length = 0 then .ok ((true, []), it)
  else
    match it.GetReadPointerAndAdvance length with
    | (none, it') => .ok ((false, []), it')
    | (some off, it') => .ok ((true, (it'.bytes_.drop off).take length.toNat), it')

/-- ReadData: a ReadLength prefix, then ReadBytes of that length. -/
def ReadData (it : PickleIterator) :
    Except Unit ((Bool × List Nat) × PickleIterator) :=
  let ((status, length), it1) := it.ReadLength
  if status = false then .ok ((false, []), it1)
  else it1.ReadBytes length

end PickleIterator

/-! Pickle of pickle.py, default-constructed (owned, growable) variant.
The default constructor builds header_ = bytearray(SizeOf.HEADER) with
header_size_ = 4, then Resize(kPayloadUnit = 64) and stores payload
size 0 in the first four bytes. Since header_size_ is always 4 on this
path, header_ is modelled as the stored payload-size field (its first
four bytes, as a number) plus buf, the bytes of header_ after them. -/

/-- Owned Pickle: payloadSizeField is the uint32 stored in
header_[0:4]; buf is header_[4:], of length capacity - 4. -/
structure Pickle where
  payloadSizeField : Nat
  buf : List Nat
  capacity : Nat
deriving Repr, DecidableEq

namespace Pickle

/-- kPayloadUnit of constants.py. -/
def kPayloadUnit : Nat := 64

/-- kuint32max of constants.py, which the source sets to sys.maxsize. -/
def kuint32max : Nat := 9223372036854775807

/-- Resize for an owned Pickle: align the requested capacity to
kPayloadUnit, then shrink, keep or zero-extend header_. The
new_capacity = 0 branch resets to a bare 4-byte header. -/
def Resize (p : Pickle) (newCapacity : Nat) : Pickle :=
  let nc := alignNat newCapacity kPayloadUnit
  if nc = 0 then { payloadSizeField := p.payloadSizeField, buf := [], capacity := 0 }
  else if nc < p.capacity then { p with buf := p.buf.take (nc - 4), capacity := nc }
  else if nc = p.capacity then { p with capacity := nc }
  else { p with buf := p.buf ++ List.replicate (nc - p.capacity) 0, capacity := nc }

/-- Default-constructed Pickle(): capacity 64, payload size 0, zeroed
storage. -/
def empty : Pickle :=
  { payloadSizeField := 0, buf := List.replicate 60 0, capacity := 64 }

/-- BeginWrite: computes the 4-byte-aligned write offset after the
current payload, grows capacity if needed, checks length against
kuint32max (raising ValueError, Except.error, beyond it), stores the
new payload size (struct.pack_into format I raises beyond uint32) and
returns the absolute destination offset payload() + offset, with
payload() = header_size_ = 4. -/
def BeginWrite (p : Pickle) (length : Nat) : Except Unit (Nat × Pickle) :=
  let offset := alignNat p.payloadSizeField 4
  let newSize := offset + length
  let neededSize := 4 + newSize
  let p1 := if neededSize > p.capacity then p.Resize (max (2 * p.capacity) neededSize) else p
  if length > kuint32max then .error ()
  else if newSize ≥ 4294967296 then .error ()
  else .ok (4 + offset, { p1 with payloadSizeField := newSize })

/-- EndWrite: zero-pads from dest + length to the next 4-byte boundary.
dest is an absolute offset into header_, so dest - 4 indexes buf. -/
def EndWrite (p : Pickle) (dest length : Nat) : Pickle :=
  if length % 4 ≠ 0 then
    let start := dest + length - 4
    let pad := 4 - length % 4
    { p with buf := p.buf.take start ++ List.replicate pad 0 ++ p.buf.drop (start + pad) }
  else p

/-- WriteBytes: BeginWrite, copy data_len bytes at the returned offset,
EndWrite. The readonly-capacity check never fires for an owned Pickle. -/
def WriteBytes (p : Pickle) (data : List Nat) (dataLen : Nat) : Except Unit Pickle :=
  match p.BeginWrite dataLen with
  | .error e => .error e
  | .ok (dest, p1) =>
    let off := dest - 4
    let p2 := { p1 with buf := p1.buf.take off ++ data.take dataLen ++ p1.buf.drop (off + dataLen) }
    .ok (p2.EndWrite dest dataLen)

/-- WriteInt: int.to_bytes(4, byteorder) raises OverflowError outside
the uint32 range (and for negative values, excluded here by Nat). -/
def WriteInt (p : Pickle) (value : Nat) : Except Unit Pickle :=
  if value ≥ 4294967296 then .error ()
  else p.WriteBytes (leBytes value 4) 4

/-- WriteBool writes 1 or 0 as an int. -/
def WriteBool (p : Pickle) (value : Bool) : Except Unit Pickle :=
  p.WriteInt (if value then 1 else 0)

/-- WriteUInt16. -/
def WriteUInt16 (p : Pickle) (value : Nat) : Except Unit Pickle :=
  if value ≥ 65536 then .error ()
  else p.WriteBytes (leBytes value 2) 2

/-- WriteUInt32. -/
def WriteUInt32 (p : Pickle) (value : Nat) : Except Unit Pickle :=
  if value ≥ 4294967296 then .error ()
  else p.WriteBytes (leBytes value 4) 4

/-- WriteInt64 (nonnegative values; negative ones raise in to_bytes). -/
def WriteInt64 (p : Pickle) (value : Nat) : Except Unit Pickle :=
  if value ≥ 18446744073709551616 then .error ()
  else p.WriteBytes (leBytes value 8) 8

/-- WriteUInt64. -/
def WriteUInt64 (p : Pickle) (value : Nat) : Except Unit Pickle :=
  if value ≥ 18446744073709551616 then .error ()
  else p.WriteBytes (leBytes value 8) 8

/-- WriteString: UTF-8 encode, write the byte count as an int, then the
bytes. -/
def WriteString (p : Pickle) (value : List Nat) : Except Unit Pickle :=
  let data := utf8Encode value
  match p.WriteInt data.length with
  | .error e => .error e
  | .ok p1 => p1.WriteBytes data data.length

/-- WriteWString: UTF-32-LE encode, write the byte count as an int,
then the bytes. -/
def WriteWString (p : Pickle) (value : List Nat) : Except Unit Pickle :=
  let data := utf32Encode value
  match p.WriteInt data.length with
  | .error e => .error e
  | .ok p1 => p1.WriteBytes data data.length

/-- WriteString16: UTF-16-LE encode, write the byte count as an int,
then the bytes. -/
def WriteString16 (p : Pickle) (value : List Nat) : Except Unit Pickle :=
  let data := utf16Encode value
  match p.WriteInt data.length with
  | .error e => .error e
  | .ok p1 => p1.WriteBytes data data.length

/-- WriteData: length-prefixed blob (the negative-length reject branch
is unreachable for a Nat length). -/
def WriteData (p : Pickle) (data : List Nat) (length : Nat) : Except Unit Pickle :=
  match p.WriteInt length with
  | .error e => .error e
  | .ok p1 => p1.WriteBytes data length

end Pickle

/-! Pickle of pickle.py constructed from a block of bytes (borrowed,
read-only). header_size_ is deduced as data length minus the stored
payload-size field; a deduced value greater than the data length or not
4-byte aligned is zeroed, and a zero header size drops the data
(header_ = None). -/

/-- Borrowed Pickle: hdr models header_ (none when the constructor
rejected the data), headerSize models header_size_, a Python int that
can be negative. -/
structure PickleWrap where
  hdr : Option (List Nat)
  headerSize : Int
deriving Repr, DecidableEq

namespace PickleWrap

/-- Pickle(data) for a block of bytes. -/
def ofBytes (data : List Nat) : PickleWrap :=
  let dataLen := data.length
  let hs0 : Int := if dataLen ≥ 4 then (dataLen : Int) - readLE data 0 4 else 0
  let hs1 : Int := if hs0 > (dataLen : Int) then 0 else hs0
  let hs2 : Int := if hs1 ≠ AlignInt hs1 4 then 0 else hs1
  if hs2 = 0 then { hdr := none, headerSize := hs2 }
  else { hdr := some data, headerSize := hs2 }

/-- Adaptation of size(): 0 without a header, otherwise header_size_
plus the stored payload size. -/
def size (p : PickleWrap) : Int :=
  match p.hdr with
  | none => 0
  | some d => p.headerSize + readLE d 0 4

/-- Adaptation of data(): bytearray() without a header, otherwise the
referenced bytes. -/
def dataBytes (p : PickleWrap) : List Nat :=
  p.hdr.getD []

end PickleWrap

/-- Python sequence slicing l[i:] for a possibly negative start index. -/
def pySliceFrom (l : List Nat) (i : Int) : List Nat :=
  if 0 ≤ i then l.drop i.toNat
  else l.drop (((l.length : Int) + i).toNat)

/-- PickleIterator(pickle) for an owned Pickle:
memoryview(p.data())[p.payload():] with payload() = 4 is exactly buf,
the whole storage after the header, not just the payload_size bytes. -/
def PickleIterator.ofPickle (p : Pickle) : PickleIterator :=
  { bytes_ := p.buf, readPtr := 0 }

/-- PickleIterator(pickle) for a borrowed Pickle:
memoryview(p.data())[p.payload():] with payload() = header_size_. -/
def PickleIterator.ofWrap (p : PickleWrap) : PickleIterator :=
  { bytes_ := pySliceFrom p.dataBytes p.headerSize, readPtr := 0 }

/-! TabNavigation of tabnavigation.py. Fields initialised to None are
modelled as Option values with default none; has_post_data_ is
initialised to False but reassigned type_mask & HAS_POST_DATA, an int,
so it is an Int with Python False standing as 0. A referrer is a pair
of URL string and policy int (WebReferrerPolicyDefault = 1). -/

/-- TabNavigation record with the defaults of its constructor. -/
structure TabNavigation where
  index_ : Int := -1
  unique_id_ : Int := 0
  referrer_ : Option (List Nat × Int) := none
  virtual_url_ : Option (List Nat) := none
  title_ : Option (List Nat) := none
  content_state_ : Option (List Nat) := none
  transition_type_ : Int := 0
  has_post_data_ : Int := 0
  post_id_ : Int := -1
  original_request_url_ : Option (List Nat) := none
  is_overriding_user_agent_ : Bool := false
deriving Repr, DecidableEq

/-- Python type_mask & TypeMask.HAS_POST_DATA with HAS_POST_DATA = 1;
for Python ints, x & 1 equals x mod 2 (also for negative x, whose
bitwise semantics are two's complement). -/
def maskHasPostData (typeMask : Int) : Int :=
  typeMask % 2

/-- TabNavigation.ReadFromPickle. Reading a string field with one of
the methods whose failure path returns a bare False makes the
assignment status, field = iterator.Read...() raise TypeError, modelled
as Except.error (a UnicodeDecodeError from a string decode propagates
the same way). The scalar reads return real tuples, so their failures
follow the source's return False / default logic. The result carries
the status returned, the record as mutated, and the iterator. -/
def TabNavigation.ReadFromPickle (it : PickleIterator) :
    Except Unit ((Bool × TabNavigation) × PickleIterator) :=
  let ((s1, idx), it1) := it.ReadInt
  let nav : TabNavigation := { index_ := idx }
  if s1 = false then .ok ((false, nav), it1)
  else
    match it1.ReadString with
    | (.bareFalse, _) => .error ()
    | (.decodeErr, _) => .error ()
    | (.ok vurl, it2) =>
      let nav := { nav with virtual_url_ := some vurl }
      match it2.ReadString16 with
      | (.bareFalse, _) => .error ()
      | (.decodeErr, _) => .error ()
      | (.ok ttl, it3) =>
        let nav := { nav with title_ := some ttl }
        match it3.ReadBinaryString with
        | (.bareFalse, _) => .error ()
        | (.decodeErr, _) => .error ()
        | (.ok cstate, it4) =>
          let nav := { nav with content_state_ := some cstate }
          let ((s5, ttype), it5) := it4.ReadInt
          let nav := { nav with transition_type_ := ttype }
          if s5 = false then .ok ((false, nav), it5)
          else
            let ((hasTypeMask, typeMask), it6) := it5.ReadInt
            if hasTypeMask = false then .ok ((true, nav), it6)
            else
              let nav := { nav with has_post_data_ := maskHasPostData typeMask }
              match it6.ReadString with
              | (.bareFalse, _) => .error ()
              | (.decodeErr, _) => .error ()
              | (.ok rspec, it7) =>
                let ((sp, pol), it8) := it7.ReadInt
                let policy : Int := if sp then pol else 1
                let nav := { nav with referrer_ := some (rspec, policy) }
                match it8.ReadString with
                | (.bareFalse, _) => .error ()
                | (.decodeErr, _) => .error ()
                | (.ok ourl, it9) =>
                  let nav := { nav with original_request_url_ := some ourl }
                  let ((sb, bval), it10) := it9.ReadBool
                  let nav := { nav with is_overriding_user_agent_ := if sb then bval else false }
                  .ok ((true, nav), it10)

/-! SessionCommand and SessionFileReader of session.py. A command is a
1-byte id plus owned contents. The reader validates the 8-byte file
header and then streams commands through a refillable window buffer of
kFileReadBufferSize bytes. The file handle is modelled by the list of
its not-yet-read bytes; readinto on it returns the number of bytes
copied, so the read_count is None branch (errored_) never fires and
errored_ stays False throughout. -/

/-- kFileSignature of constants.py. -/
def kFileSignature : Nat := 0x53534E53

/-- kFileCurrentVersion of constants.py. -/
def kFileCurrentVersion : Nat := 1

/-- kFileReadBufferSize of constants.py. -/
def kFileReadBufferSize : Nat := 1024

/-- SessionCommand(id, pickle): contents_ is a copy of the first
size() bytes of the pickle's data (the full encoded record). -/
def SessionCommand.contentsOfPickle (data : List Nat) : List Nat :=
  let p := PickleWrap.ofBytes data
  p.dataBytes.take p.size.toNat

/-- Command as returned by the reader: command_id and contents_. -/
abbrev Command := Nat × List Nat

/-- Reader window state: the unread part of the file, buffer_,
buffer_position_ and available_count_ (errored_ is omitted, being
always False, see above). -/
structure RState where
  file : List Nat
  buffer : List Nat
  pos : Nat
  avail : Nat
deriving Repr, DecidableEq

namespace RState

/-- Bytes of the input not yet consumed by command decoding: the unread
window slice followed by the unread file bytes. -/
def stream (st : RState) : List Nat :=
  (st.buffer.drop st.pos).take st.avail ++ st.file

end RState

/-- Reader window invariant: the unread slice lies inside the buffer
and the buffer is at least its initial kFileReadBufferSize bytes. -/
def RInv (st : RState) : Prop :=
  st.pos + st.avail ≤ st.buffer.length ∧ 1024 ≤ st.buffer.length

/-- Buffer of a reader state after the shift-to-front step of
__FillBuffer (the slice assignment buffer_[0:avail] =
buffer_[position:position+avail], performed only when both the unread
count and the position are positive). -/
def shiftBuf (st : RState) : List Nat :=
  if 0 < st.avail ∧ 0 < st.pos then
    (st.buffer.drop st.pos).take st.avail ++ st.buffer.drop st.avail
  else st.buffer

/-- SessionFileReader.__FillBuffer: shift the unread window slice to
the front, raise ValueError (Except.error) if the buffer is already
full, then top the buffer up from the file; returns False when the file
yielded no bytes. -/
def FillBuffer (st : RState) : Except Unit (Bool × RState) :=
  if st.avail ≥ (shiftBuf st).length then .error ()
  else
    let toRead := (shiftBuf st).length - st.avail
    let k := min toRead st.file.length
    let buf' := (shiftBuf st).take st.avail ++ st.file.take k ++ (shiftBuf st).drop (st.avail + k)
    .ok (k ≠ 0, { file := st.file.drop k, buffer := buf', pos := 0, avail := st.avail + k })

/-- Tail of SessionFileReader.__ReadCommand once command_size is known
and available: split off the 1-byte id, wrap non-empty contents as a
Pickle and copy them into the command, and consume command_size bytes. -/
def ReadCommandFinish (size : Nat) (st : RState) : Option Command × RState :=
  let id := st.buffer.getD st.pos 0
  let cmd : Command :=
    if size > 1 then
      (id, SessionCommand.contentsOfPickle ((st.buffer.drop (st.pos + 1)).take (size - 1)))
    else (id, [])
  (some cmd, { st with pos := st.pos + size, avail := st.avail - size })

/-- Middle of SessionFileReader.__ReadCommand: read the 16-bit size
prefix, stop on size 0, grow the window if the frame exceeds it, refill
and stop if the frame is still incomplete (a truncated trailing write). -/
def ReadCommandSized (st : RState) : Except Unit (Option Command × RState) :=
  let size := readLE st.buffer st.pos 2
  let st1 : RState := { st with pos := st.pos + 2, avail := st.avail - 2 }
  if size = 0 then .ok (none, st1)
  else if size > st1.avail then
    let st2 := if size > st1.buffer.length then
                 { st1 with buffer := st1.buffer ++ List.replicate (size + kFileReadBufferSize - st1.buffer.length) 0 }
               else st1
    match FillBuffer st2 with
    | .error e => .error e
    | .ok (ok, st3) =>
      if ok = false then .ok (none, st3)
      else if size > st3.avail then .ok (none, st3)
      else .ok (ReadCommandFinish size st3)
  else .ok (ReadCommandFinish size st1)

/-- SessionFileReader.__ReadCommand: ensure at least the 2-byte size
prefix is available (refilling if needed), then decode one command.
A returned none is either clean end of input or a truncated tail. -/
def ReadCommand (st : RState) : Except Unit (Option Command × RState) :=
  if st.avail < 2 then
    match FillBuffer st with
    | .error e => .error e
    | .ok (ok, st1) =>
      if ok = false then .ok (none, st1)
      else if st1.avail < 2 then .ok (none, st1)
      else ReadCommandSized st1
  else ReadCommandSized st

/-- Loop of SessionFileReader.Read: append commands until __ReadCommand
returns None. errored_ is always False, so the loop only stops on None
and the final status is True. The fuel argument bounds the iteration
count; Read passes enough fuel for any input (each decoded command
consumes at least 3 stream bytes). -/
def ReadLoop : Nat → RState → List Command → Except Unit (Bool × List Command)
  | 0, _, _ => .error ()
  | fuel + 1, st, acc =>
    match ReadCommand st with
    | .error e => .error e
    | .ok (none, _) => .ok (true, acc)
    | .ok (some cmd, st') => ReadLoop fuel st' (acc ++ [cmd])

/-- SessionFileReader.Read on the bytes of a file: read the 8-byte
header (failing unless 8 bytes were obtained), check signature and
version, then stream commands from the rest through a fresh
kFileReadBufferSize window. -/
def SessionFileReader.Read (file : List Nat) : Except Unit (Bool × List Command) :=
  let readCount := min 8 file.length
  if readCount ≠ 8 then .ok (false, [])
  else
    let signature := readLE file 0 4
    let version := readLE file 4 4
    if signature ≠ kFileSignature ∨ version ≠ kFileCurrentVersion then .ok (false, [])
    else
      ReadLoop (file.length + 1)
        { file := file.drop 8, buffer := List.replicate kFileReadBufferSize 0, pos := 0, avail := 0 } []

/-! A datatype of the cursor read operations, to quantify over
arbitrary sequences of reads in the cursor invariants. -/

/-- One PickleIterator read operation. -/
inductive ROp where
  | bool
  | int
  | long
  | uint16
  | uint32
  | int64
  | uint64
  | binaryString
  | str
  | wstr
  | str16
  | length
  | rawBytes (n : Nat)
  | data
  | skip (n : Nat)
deriving Repr, DecidableEq

/-- Outcome of one read operation: a success, a returned failure value
(a False status tuple or a bare False), or a raised exception. -/
inductive Outcome where
  | ok
  | failv
  | raised
deriving Repr, DecidableEq

/-- Whether the operation starts with a 4-byte length prefix read. -/
def ROp.hasLenPrefixRead : ROp → Bool
  | .binaryString | .str | .wstr | .str16 | .length | .data => true
  | _ => false

/-- Run one read operation on an iterator, keeping its outcome and the
iterator as the operation leaves it (a raised exception leaves the
iterator as mutated up to the raise). -/
def applyROp (op : ROp) (it : PickleIterator) : Outcome × PickleIterator :=
  match op with
  | .bool => let ((s, _), it') := it.ReadBool; (if s then .ok else .failv, it')
  | .int => let ((s, _), it') := it.ReadInt; (if s then .ok else .failv, it')
  | .long => let ((s, _), it') := it.ReadLong; (if s then .ok else .failv, it')
  | .uint16 => let ((s, _), it') := it.ReadUInt16; (if s then .ok else .failv, it')
  | .uint32 => let ((s, _), it') := it.ReadUInt32; (if s then .ok else .failv, it')
  | .int64 => let ((s, _), it') := it.ReadInt64; (if s then .ok else .failv, it')
  | .uint64 => let ((s, _), it') := it.ReadUInt64; (if s then .ok else .failv, it')
  | .binaryString =>
    match it.ReadBinaryString with
    | (.bareFalse, it') => (.failv, it')
    | (.decodeErr, it') => (.raised, it')
    | (.ok _, it') => (.ok, it')
  | .str =>
    match it.ReadString with
    | (.bareFalse, it') => (.failv, it')
    | (.decodeErr, it') => (.raised, it')
    | (.ok _, it') => (.ok, it')
  | .wstr =>
    match it.ReadWString with
    | (.bareFalse, it') => (.failv, it')
    | (.decodeErr, it') => (.raised, it')
    | (.ok _, it') => (.ok, it')
  | .str16 =>
    match it.ReadString16 with
    | (.bareFalse, it') => (.failv, it')
    | (.decodeErr, it') => (.raised, it')
    | (.ok _, it') => (.ok, it')
  | .length => let ((s, _), it') := it.ReadLength; (if s then .ok else .failv, it')
  | .rawBytes n =>
    match it.ReadBytes n with
    | .error _ => (.raised, it)
    | .ok ((s, _), it') => (if s then .ok else .failv, it')
  | .data =>
    match it.ReadData with
    | .error _ => (.raised, it)
    | .ok ((s, _), it') => (if s then .ok else .failv, it')
  | .skip n => let (s, it') := it.SkipBytes n; (if s then .ok else .failv, it')

/-- Run a sequence of read operations, threading the iterator. -/
def applyROps (ops : List ROp) (it : PickleIterator) : PickleIterator :=
  ops.foldl (fun acc op => (applyROp op acc).2) it

/-- Cursor position invariant: read_ptr_ is 4-byte aligned and at most
read_end_ptr_ rounded up to a multiple of 4. -/
def PosInv (it : PickleIterator) : Prop :=
  it.readPtr % 4 = 0 ∧ it.readPtr ≤ alignNat it.bytes_.length 4

/-! A datatype of the Pickle write operations, to quantify over
arbitrary sequences of writes for the payload-size invariant. Scalar
arguments are Nat since int.to_bytes raises on negative values; the
writers themselves still check the upper bounds. -/

/-- One Pickle write operation. -/
inductive WOp where
  | wbool (b : Bool)
  | wint (n : Nat)
  | wuint16 (n : Nat)
  | wuint32 (n : Nat)
  | wint64 (n : Nat)
  | wuint64 (n : Nat)
  | wstr (s : List Nat)
  | wwstr (s : List Nat)
  | wstr16 (s : List Nat)
  | wdata (d : List Nat) (n : Nat)
  | wbytes (d : List Nat) (n : Nat)
deriving Repr, DecidableEq

/-- Run one write operation. -/
def applyWOp (op : WOp) (p : Pickle) : Except Unit Pickle :=
  match op with
  | .wbool b => p.WriteBool b
  | .wint n => p.WriteInt n
  | .wuint16 n => p.WriteUInt16 n
  | .wuint32 n => p.WriteUInt32 n
  | .wint64 n => p.WriteInt64 n
  | .wuint64 n => p.WriteUInt64 n
  | .wstr s => p.WriteString s
  | .wwstr s => p.WriteWString s
  | .wstr16 s => p.WriteString16 s
  | .wdata d n => p.WriteData d n
  | .wbytes d n => p.WriteBytes d n

/-- Run a sequence of write operations, stopping at the first raise. -/
def applyWOps : List WOp → Pickle → Except Unit Pickle
  | [], p => .ok p
  | op :: rest, p =>
    match applyWOp op p with
    | .error e => .error e
    | .ok p1 => applyWOps rest p1

/-- Raw byte length of the final WriteBytes call an operation performs
(for string writers, the encoded byte count written after the length
prefix). -/
def WOp.lastRawLen : WOp → Nat
  | .wbool _ => 4
  | .wint _ => 4
  | .wuint16 _ => 2
  | .wuint32 _ => 4
  | .wint64 _ => 8
  | .wuint64 _ => 8
  | .wstr s => (utf8Encode s).length
  | .wwstr s => (utf32Encode s).length
  | .wstr16 s => (utf16Encode s).length
  | .wdata _ n => n
  | .wbytes _ n => n

/-! Frame-level encoding of a command log, for stating what the reader
returns on a well-formed frame sequence followed by a bad tail. -/

/-- On-disk bytes of one frame: 16-bit little-endian size prefix
(1 + contents length), the id byte, the contents. -/
def encodeFrame (f : Command) : List Nat :=
  (f.2.length + 1) % 256 :: (f.2.length + 1) / 256 :: f.1 :: f.2

/-- Concatenated frames. -/
def encodeFrames (frames : List Command) : List Nat :=
  frames.foldr (fun f acc => encodeFrame f ++ acc) []

/-- Well-formed frames: byte-sized id and contents, frame size within
16 bits. -/
def WFframes (frames : List Command) : Prop :=
  ∀ f ∈ frames, f.1 < 256 ∧ f.2.length + 1 < 65536 ∧ ∀ b ∈ f.2, b < 256

/-- A tail at which streaming stops cleanly: a frame declaring size 0,
or a trailing frame whose declared size exceeds the bytes that follow
(cut mid-content). -/
def BadTail (tail : List Nat) : Prop :=
  2 ≤ tail.length ∧ tail.getD 0 0 < 256 ∧ tail.getD 1 0 < 256 ∧
    (tail.getD 0 0 + 256 * tail.getD 1 0 = 0 ∨
     tail.length - 2 < tail.getD 0 0 + 256 * tail.getD 1 0)

/-- The command the reader builds from one frame: empty contents stay
empty (the command_size = 1 branch), non-empty contents are copied
through a borrowed Pickle. -/
def expectedCommand (f : Command) : Command :=
  (f.1, if f.2.length = 0 then [] else SessionCommand.contentsOfPickle f.2)

/-- Little-endian bytes of a valid file header (kFileSignature,
kFileCurrentVersion). -/
def fileHeaderBytes : List Nat :=
  [0x53, 0x4E, 0x53, 0x53, 1, 0, 0, 0]

/-! Concrete values used by witnesses and counterexamples. -/

/-- Pickle produced by a single WriteUInt16 5 on an empty Pickle. -/
def pickleAfterU16 : Pickle :=
  match applyWOps [.wuint16 5] Pickle.empty with
  | .ok p => p
  | .error _ => Pickle.empty

/-- Navigation payload holding exactly the five mandatory fields (all
zero / empty) and nothing after them; wrapped as pickle contents with a
4-byte header its byte block is navFiveFieldBlock. -/
def navFiveFieldPayload : List Nat :=
  List.replicate 20 0

/-- Pickle-encoded block for navFiveFieldPayload. -/
def navFiveFieldBlock : List Nat :=
  [20, 0, 0, 0] ++ navFiveFieldPayload

/-- Record decoded from navFiveFieldPayload. -/
def navFiveFieldRecord : TabNavigation :=
  match TabNavigation.ReadFromPickle (PickleIterator.ofWrap (PickleWrap.ofBytes navFiveFieldBlock)) with
  | .ok ((_, nav), _) => nav
  | .error _ => {}

/-! Theorems. First, arithmetic facts about alignment and the basic
cursor-advance lemmas that the claim theorems share. -/

theorem alignNat_mod (n : Nat) : alignNat n 4 % 4 = 0 := by
  unfold alignNat; omega

theorem le_alignNat (n : Nat) : n ≤ alignNat n 4 := by
  unfold alignNat; omega

theorem alignNat_mono {m n : Nat} (h : m ≤ n) : alignNat m 4 ≤ alignNat n 4 := by
  unfold alignNat; omega

theorem alignNat_add_of_aligned {p : Nat} (h : p % 4 = 0) (k : Nat) :
    p + alignNat k 4 = alignNat (p + k) 4 := by
  unfold alignNat; omega

theorem alignNat_eq_of_aligned {n : Nat} (h : n % 4 = 0) : alignNat n 4 = n := by
  unfold alignNat; omega

namespace PickleIterator

theorem getRead_none (it : PickleIterator) (nb : Int) (se : Nat) (it' : PickleIterator)
    (h : it.GetReadPointerAndAdvance nb se = (none, it')) : it' = it := by
  unfold GetReadPointerAndAdvance at h
  split at h
  · cases h; rfl
  · simp at h

theorem getRead_some (it : PickleIterator) (nb : Int) (se : Nat) (off : Nat)
    (it' : PickleIterator)
    (h : it.GetReadPointerAndAdvance nb se = (some off, it')) :
    it.readPtr + (effBytes nb se).toNat ≤ it.bytes_.length ∧ off = it.readPtr ∧
      it' = { it with readPtr := it.readPtr + alignNat (effBytes nb se).toNat 4 } := by
  unfold GetReadPointerAndAdvance at h
  split at h
  · simp at h
  · next hc =>
    push_neg at hc
    obtain ⟨h1, h2⟩ := hc
    refine ⟨?_, ?_, ?_⟩
    · unfold readEnd at h2
      omega
    · cases h; rfl
    · cases h; rfl

theorem getRead_bytes (it : PickleIterator) (nb : Int) (se : Nat) :
    (it.GetReadPointerAndAdvance nb se).2.bytes_ = it.bytes_ := by
  unfold GetReadPointerAndAdvance
  split <;> rfl

theorem getRead_posInv (it : PickleIterator) (nb : Int) (se : Nat) (h : PosInv it) :
    PosInv (it.GetReadPointerAndAdvance nb se).2 := by
  rcases hG : it.GetReadPointerAndAdvance nb se with ⟨o, it'⟩
  cases o with
  | none => rw [getRead_none it nb se it' hG]; exact h
  | some off =>
    obtain ⟨hk, hoff, hit⟩ := getRead_some it nb se off it' hG
    subst hit
    obtain ⟨h1, h2⟩ := h
    constructor
    · show (it.readPtr + alignNat (effBytes nb se).toNat 4) % 4 = 0
      have := alignNat_mod (effBytes nb se).toNat
      omega
    · show it.readPtr + alignNat (effBytes nb se).toNat 4 ≤ alignNat it.bytes_.length 4
      rw [alignNat_add_of_aligned h1]
      exact alignNat_mono hk

theorem getRead_keeps (it : PickleIterator) (nb : Int) (se : Nat) :
    (it.GetReadPointerAndAdvance nb se).2.bytes_ = it.bytes_ ∧
      (PosInv it → PosInv (it.GetReadPointerAndAdvance nb se).2) :=
  ⟨getRead_bytes it nb se, getRead_posInv it nb se⟩

theorem keeps_ReadBool (it : PickleIterator) :
    (it.ReadBool).2.bytes_ = it.bytes_ ∧ (PosInv it → PosInv (it.ReadBool).2) := by
  have h := getRead_keeps it 1 0
  unfold ReadBool
  rcases hG : it.GetReadPointerAndAdvance 1 with ⟨o, it'⟩
  rw [hG] at h
  cases o <;> exact h

theorem keeps_ReadInt (it : PickleIterator) :
    (it.ReadInt).2.bytes_ = it.bytes_ ∧ (PosInv it → PosInv (it.ReadInt).2) := by
  have h := getRead_keeps it 4 0
  unfold ReadInt
  rcases hG : it.GetReadPointerAndAdvance 4 with ⟨o, it'⟩
  rw [hG] at h
  cases o <;> exact h

theorem keeps_ReadLong (it : PickleIterator) :
    (it.ReadLong).2.bytes_ = it.bytes_ ∧ (PosInv it → PosInv (it.ReadLong).2) := by
  have h := getRead_keeps it 4 0
  unfold ReadLong
  rcases hG : it.GetReadPointerAndAdvance 4 with ⟨o, it'⟩
  rw [hG] at h
  cases o <;> exact h

theorem keeps_ReadUInt16 (it : PickleIterator) :
    (it.ReadUInt16).2.bytes_ = it.bytes_ ∧ (PosInv it → PosInv (it.ReadUInt16).2) := by
  have h := getRead_keeps it 2 0
  unfold ReadUInt16
  rcases hG : it.GetReadPointerAndAdvance 2 with ⟨o, it'⟩
  rw [hG] at h
  cases o <;> exact h

theorem keeps_ReadUInt32 (it : PickleIterator) :
    (it.ReadUInt32).2.bytes_ = it.bytes_ ∧ (PosInv it → PosInv (it.ReadUInt32).2) := by
  have h := getRead_keeps it 4 0
  unfold ReadUInt32
  rcases hG : it.GetReadPointerAndAdvance 4 with ⟨o, it'⟩
  rw [hG] at h
  cases o <;> exact h

theorem keeps_ReadInt64 (it : PickleIterator) :
    (it.ReadInt64).2.bytes_ = it.bytes_ ∧ (PosInv it → PosInv (it.ReadInt64).2) := by
  have h := getRead_keeps it 8 0
  unfold ReadInt64
  rcases hG : it.GetReadPointerAndAdvance 8 with ⟨o, it'⟩
  rw [hG] at h
  cases o <;> exact h

theorem keeps_ReadUInt64 (it : PickleIterator) :
    (it.ReadUInt64).2.bytes_ = it.bytes_ ∧ (PosInv it → PosInv (it.ReadUInt64).2) := by
  have h := getRead_keeps it 8 0
  unfold ReadUInt64
  rcases hG : it.GetReadPointerAndAdvance 8 with ⟨o, it'⟩
  rw [hG] at h
  cases o <;> exact h

theorem keeps_SkipBytes (it : PickleIterator) (n : Int) :
    (it.SkipBytes n).2.bytes_ = it.bytes_ ∧ (PosInv it → PosInv (it.SkipBytes n).2) := by
  have h := getRead_keeps it n 0
  unfold SkipBytes
  rcases hG : it.GetReadPointerAndAdvance n with ⟨o, it'⟩
  rw [hG] at h
  cases o <;> exact h

theorem keeps_ReadBinaryString (it : PickleIterator) :
    (it.ReadBinaryString).2.bytes_ = it.bytes_ ∧
      (PosInv it → PosInv (it.ReadBinaryString).2) := by
  have h1 := keeps_ReadInt it
  unfold ReadBinaryString
  rcases hI : it.ReadInt with ⟨⟨s, len⟩, it1⟩
  rw [hI] at h1
  cases s
  · exact h1
  · have h2 := getRead_keeps it1 len 0
    simp only [Bool.true_eq_false, if_false]
    rcases hG : it1.GetReadPointerAndAdvance len with ⟨o, it2⟩
    rw [hG] at h2
    cases o with
    | none => exact ⟨h2.1.trans h1.1, fun hp => h2.2 (h1.2 hp)⟩
    | some off =>
      dsimp only
      constructor
      · split <;> exact h2.1.trans h1.1
      · intro hp
        split <;> exact h2.2 (h1.2 hp)

theorem keeps_ReadString (it : PickleIterator) :
    (it.ReadString).2.bytes_ = it.bytes_ ∧ (PosInv it → PosInv (it.ReadString).2) := by
  have h1 := keeps_ReadInt it
  unfold ReadString
  rcases hI : it.ReadInt with ⟨⟨s, len⟩, it1⟩
  rw [hI] at h1
  cases s
  · exact h1
  · have h2 := getRead_keeps it1 len 0
    simp only [Bool.true_eq_false, if_false]
    rcases hG : it1.GetReadPointerAndAdvance len with ⟨o, it2⟩
    rw [hG] at h2
    cases o with
    | none => exact ⟨h2.1.trans h1.1, fun hp => h2.2 (h1.2 hp)⟩
    | some off =>
      have hk : it2.bytes_ = it.bytes_ := h2.1.trans h1.1
      have hpk : PosInv it → PosInv it2 := fun hp => h2.2 (h1.2 hp)
      dsimp only
      constructor
      · split
        · split <;> exact hk
        · exact hk
      · intro hp
        split
        · split <;> exact hpk hp
        · exact hpk hp

theorem keeps_ReadWString (it : PickleIterator) :
    (it.ReadWString).2.bytes_ = it.bytes_ ∧ (PosInv it → PosInv (it.ReadWString).2) := by
  have h1 := keeps_ReadInt it
  unfold ReadWString
  rcases hI : it.ReadInt with ⟨⟨s, len⟩, it1⟩
  rw [hI] at h1
  cases s
  · exact h1
  · have h2 := getRead_keeps it1 len 4
    simp only [Bool.true_eq_false, if_false]
    rcases hG : it1.GetReadPointerAndAdvance len 4 with ⟨o, it2⟩
    rw [hG] at h2
    cases o with
    | none => exact ⟨h2.1.trans h1.1, fun hp => h2.2 (h1.2 hp)⟩
    | some off =>
      have hk : it2.bytes_ = it.bytes_ := h2.1.trans h1.1
      have hpk : PosInv it → PosInv it2 := fun hp => h2.2 (h1.2 hp)
      dsimp only
      constructor
      · split
        · split <;> exact hk
        · exact hk
      · intro hp
        split
        · split <;> exact hpk hp
        · exact hpk hp

theorem keeps_ReadString16 (it : PickleIterator) :
    (it.ReadString16).2.bytes_ = it.bytes_ ∧ (PosInv it → PosInv (it.ReadString16).2) := by
  have h1 := keeps_ReadInt it
  unfold ReadString16
  rcases hI : it.ReadInt with ⟨⟨s, len⟩, it1⟩
  rw [hI] at h1
  cases s
  · exact h1
  · have h2 := getRead_keeps it1 len 2
    simp only [Bool.true_eq_false, if_false]
    rcases hG : it1.GetReadPointerAndAdvance len 2 with ⟨o, it2⟩
    rw [hG] at h2
    cases o with
    | none => exact ⟨h2.1.trans h1.1, fun hp => h2.2 (h1.2 hp)⟩
    | some off =>
      have hk : it2.bytes_ = it.bytes_ := h2.1.trans h1.1
      have hpk : PosInv it → PosInv it2 := fun hp => h2.2 (h1.2 hp)
      dsimp only
      constructor
      · split
        · split <;> exact hk
        · exact hk
      · intro hp
        split
        · split <;> exact hpk hp
        · exact hpk hp

theorem keeps_ReadLength (it : PickleIterator) :
    (it.ReadLength).2.bytes_ = it.bytes_ ∧ (PosInv it → PosInv (it.ReadLength).2) := by
  have h1 := keeps_ReadInt it
  unfold ReadLength
  rcases hI : it.ReadInt with ⟨⟨s, r⟩, it1⟩
  rw [hI] at h1
  exact h1

theorem keeps_ReadBytes (it : PickleIterator) (len : Int) (x : Bool × List Nat)
    (it' : PickleIterator) (h : it.ReadBytes len = .ok (x, it')) :
    it'.bytes_ = it.bytes_ ∧ (PosInv it → PosInv it') := by
  unfold ReadBytes at h
  split at h
  · simp at h
  · split at h
    · cases h; exact ⟨rfl, id⟩
    · have h2 := getRead_keeps it len 0
      rcases hG : it.GetReadPointerAndAdvance len with ⟨o, it2⟩
      rw [hG] at h h2
      cases o <;> (cases h; exact h2)

theorem keeps_ReadData (it : PickleIterator) (x : Bool × List Nat)
    (it' : PickleIterator) (h : it.ReadData = .ok (x, it')) :
    it'.bytes_ = it.bytes_ ∧ (PosInv it → PosInv it') := by
  have h1 := keeps_ReadLength it
  unfold ReadData at h
  rcases hL : it.ReadLength with ⟨⟨s, len⟩, it1⟩
  rw [hL] at h h1
  cases s
  · dsimp only at h
    rw [if_pos rfl] at h
    cases h
    exact h1
  · dsimp only at h
    rw [if_neg (by simp)] at h
    have h2 := keeps_ReadBytes it1 len x it' h
    exact ⟨h2.1.trans h1.1, fun hp => h2.2 (h1.2 hp)⟩

end PickleIterator

theorem applyROp_keeps (op : ROp) (it : PickleIterator) :
    (applyROp op it).2.bytes_ = it.bytes_ ∧ (PosInv it → PosInv (applyROp op it).2) := by
  cases op with
  | bool =>
    have h := PickleIterator.keeps_ReadBool it
    dsimp only [applyROp]
    rcases hR : it.ReadBool with ⟨⟨s, v⟩, it'⟩
    rw [hR] at h
    exact h
  | int =>
    have h := PickleIterator.keeps_ReadInt it
    dsimp only [applyROp]
    rcases hR : it.ReadInt with ⟨⟨s, v⟩, it'⟩
    rw [hR] at h
    exact h
  | long =>
    have h := PickleIterator.keeps_ReadLong it
    dsimp only [applyROp]
    rcases hR : it.ReadLong with ⟨⟨s, v⟩, it'⟩
    rw [hR] at h
    exact h
  | uint16 =>
    have h := PickleIterator.keeps_ReadUInt16 it
    dsimp only [applyROp]
    rcases hR : it.ReadUInt16 with ⟨⟨s, v⟩, it'⟩
    rw [hR] at h
    exact h
  | uint32 =>
    have h := PickleIterator.keeps_ReadUInt32 it
    dsimp only [applyROp]
    rcases hR : it.ReadUInt32 with ⟨⟨s, v⟩, it'⟩
    rw [hR] at h
    exact h
  | int64 =>
    have h := PickleIterator.keeps_ReadInt64 it
    dsimp only [applyROp]
    rcases hR : it.ReadInt64 with ⟨⟨s, v⟩, it'⟩
    rw [hR] at h
    exact h
  | uint64 =>
    have h := PickleIterator.keeps_ReadUInt64 it
    dsimp only [applyROp]
    rcases hR : it.ReadUInt64 with ⟨⟨s, v⟩, it'⟩
    rw [hR] at h
    exact h
  | binaryString =>
    have h := PickleIterator.keeps_ReadBinaryString it
    dsimp only [applyROp]
    rcases hR : it.ReadBinaryString with ⟨r, it'⟩
    rw [hR] at h
    cases r <;> exact h
  | str =>
    have h := PickleIterator.keeps_ReadString it
    dsimp only [applyROp]
    rcases hR : it.ReadString with ⟨r, it'⟩
    rw [hR] at h
    cases r <;> exact h
  | wstr =>
    have h := PickleIterator.keeps_ReadWString it
    dsimp only [applyROp]
    rcases hR : it.ReadWString with ⟨r, it'⟩
    rw [hR] at h
    cases r <;> exact h
  | str16 =>
    have h := PickleIterator.keeps_ReadString16 it
    dsimp only [applyROp]
    rcases hR : it.ReadString16 with ⟨r, it'⟩
    rw [hR] at h
    cases r <;> exact h
  | length =>
    have h := PickleIterator.keeps_ReadLength it
    dsimp only [applyROp]
    rcases hR : it.ReadLength with ⟨⟨s, v⟩, it'⟩
    rw [hR] at h
    exact h
  | rawBytes n =>
    dsimp only [applyROp]
    rcases hR : it.ReadBytes n with e | ⟨⟨s, d⟩, it'⟩
    · exact ⟨rfl, id⟩
    · exact PickleIterator.keeps_ReadBytes it n (s, d) it' hR
  | data =>
    dsimp only [applyROp]
    rcases hR : it.ReadData with e | ⟨⟨s, d⟩, it'⟩
    · exact ⟨rfl, id⟩
    · exact PickleIterator.keeps_ReadData it (s, d) it' hR
  | skip n =>
    have h := PickleIterator.keeps_SkipBytes it n
    dsimp only [applyROp]
    rcases hR : it.SkipBytes n with ⟨s, it'⟩
    rw [hR] at h
    exact h

theorem applyROps_keeps (ops : List ROp) (it : PickleIterator) :
    (applyROps ops it).bytes_ = it.bytes_ ∧ (PosInv it → PosInv (applyROps ops it)) := by
  induction ops generalizing it with
  | nil => exact ⟨rfl, id⟩
  | cons op rest ih =>
    have h1 := applyROp_keeps op it
    have h2 := ih (applyROp op it).2
    have heq : applyROps (op :: rest) it = applyROps rest (applyROp op it).2 := rfl
    rw [heq]
    exact ⟨h2.1.trans h1.1, fun hp => h2.2 (h1.2 hp)⟩

/-- Claim C10: for every Pickle cursor and every sequence of read
operations, the read position is a multiple of 4 at all times. It
starts at 0, and each successful read advances it through
GetReadPointerAndAdvance by AlignInt(consumed bytes, 4), so 1- and
2-byte scalars (bool, uint16) each occupy a full 4-byte slot. -/
theorem c10_position_multiple_of_four (bytes : List Nat) (ops : List ROp) :
    (applyROps ops { bytes_ := bytes, readPtr := 0 }).readPtr % 4 = 0 := by
  have h := applyROps_keeps ops { bytes_ := bytes, readPtr := 0 }
  exact (h.2 ⟨rfl, Nat.zero_le _⟩).1

/-- Claim C3 (amended): after any sequence of read operations the read
position never exceeds the end of the payload region rounded up to the
next multiple of 4 (it can exceed the end itself by up to 3 bytes when
the payload length is not 4-byte aligned, see the counterexample). -/
theorem c3_amended_position_bounded (bytes : List Nat) (ops : List ROp) :
    (applyROps ops { bytes_ := bytes, readPtr := 0 }).readPtr ≤ alignNat bytes.length 4 := by
  have h := applyROps_keeps ops { bytes_ := bytes, readPtr := 0 }
  have hp := (h.2 ⟨rfl, Nat.zero_le _⟩).2
  rwa [h.1] at hp

/-- Claim C3 (counterexample): on the cursor of a borrowed Pickle whose
payload has length 2, a single successful ReadBool leaves the read
position at 4, strictly beyond the end of the payload region, so
position less-or-equal end does not hold at all times. -/
theorem c3_counterexample :
    (PickleIterator.ofWrap (PickleWrap.ofBytes [2, 0, 0, 0, 97, 0])).ReadBool =
      ((true, true), { bytes_ := [97, 0], readPtr := 4 }) ∧
    PickleIterator.readEnd { bytes_ := [97, 0], readPtr := 4 } < 4 := by
  constructor
  · rfl
  · decide

theorem readInt_shape (it : PickleIterator) :
    it.ReadInt = ((false, 0), it) ∨
      ∃ v, it.ReadInt = ((true, v), { it with readPtr := it.readPtr + 4 }) := by
  unfold PickleIterator.ReadInt
  rcases hG : it.GetReadPointerAndAdvance 4 with ⟨o, x⟩
  cases o with
  | none =>
    have hx := PickleIterator.getRead_none it 4 0 x hG
    subst hx
    left; rfl
  | some off =>
    obtain ⟨hk, hoff, hx⟩ := PickleIterator.getRead_some it 4 0 off x hG
    subst hx
    right
    exact ⟨toSigned32 (readLE it.bytes_ off 4), rfl⟩

theorem readLength_shape (it : PickleIterator) :
    it.ReadLength = ((false, 0), it) ∨
      (∃ v, v < 0 ∧ it.ReadLength = ((false, v), { it with readPtr := it.readPtr + 4 })) ∨
      (∃ v, 0 ≤ v ∧ it.ReadLength = ((true, v), { it with readPtr := it.readPtr + 4 })) := by
  unfold PickleIterator.ReadLength
  rcases readInt_shape it with hS | ⟨v, hS⟩ <;> rw [hS] <;> dsimp only
  · left; rfl
  · by_cases hv : 0 ≤ v
    · right; right
      exact ⟨v, hv, by simp [hv]⟩
    · right; left
      exact ⟨v, by omega, by simp [hv]⟩

theorem readBytes_shape (it : PickleIterator) (len : Int) (hlen : 0 ≤ len) :
    it.ReadBytes len = .ok ((false, []), it) ∨
      ∃ d it2, it.ReadBytes len = .ok ((true, d), it2) := by
  unfold PickleIterator.ReadBytes
  split
  · next hlt => omega
  · split
    · right; exact ⟨[], it, rfl⟩
    · rcases hG : it.GetReadPointerAndAdvance len with ⟨o2, x⟩
      cases o2 with
      | none =>
        have hx := PickleIterator.getRead_none it len 0 x hG
        subst hx
        left; rfl
      | some off =>
        right
        exact ⟨(x.bytes_.drop off).take len.toNat, x, rfl⟩

theorem readBinaryString_shape (it : PickleIterator) :
    it.ReadBinaryString = (.bareFalse, it) ∨
      it.ReadBinaryString = (.bareFalse, { it with readPtr := it.readPtr + 4 }) ∨
      ∃ r it2, it.ReadBinaryString = (.ok r, it2) := by
  unfold PickleIterator.ReadBinaryString
  rcases readInt_shape it with hS | ⟨v, hS⟩ <;> rw [hS] <;> dsimp only
  · left; rfl
  · rw [if_neg (by simp)]
    rcases hG : PickleIterator.GetReadPointerAndAdvance { it with readPtr := it.readPtr + 4 } v
      with ⟨o2, x⟩
    cases o2 with
    | none =>
      have hx := PickleIterator.getRead_none _ v 0 x hG
      subst hx
      right; left; rfl
    | some off =>
      dsimp only
      by_cases hv : v ≠ 0
      · rw [if_pos hv]
        right; right
        exact ⟨(x.bytes_.drop off).take v.toNat, x, rfl⟩
      · rw [if_neg hv]
        right; right
        exact ⟨[], x, rfl⟩

theorem readString_shape (it : PickleIterator) :
    it.ReadString = (.bareFalse, it) ∨
      it.ReadString = (.bareFalse, { it with readPtr := it.readPtr + 4 }) ∨
      (∃ r it2, it.ReadString = (.ok r, it2)) ∨
      (∃ it2, it.ReadString = (.decodeErr, it2)) := by
  unfold PickleIterator.ReadString
  rcases readInt_shape it with hS | ⟨v, hS⟩ <;> rw [hS] <;> dsimp only
  · left; rfl
  · rw [if_neg (by simp)]
    rcases hG : PickleIterator.GetReadPointerAndAdvance { it with readPtr := it.readPtr + 4 } v
      with ⟨o2, x⟩
    cases o2 with
    | none =>
      have hx := PickleIterator.getRead_none _ v 0 x hG
      subst hx
      right; left; rfl
    | some off =>
      dsimp only
      by_cases hv : v ≠ 0
      · rw [if_pos hv]
        rcases hD : utf8Decode ((x.bytes_.drop off).take v.toNat) with _ | s
        · right; right; right; exact ⟨x, rfl⟩
        · right; right; left; exact ⟨s, x, rfl⟩
      · rw [if_neg hv]
        right; right; left
        exact ⟨[], x, rfl⟩

theorem readWString_shape (it : PickleIterator) :
    it.ReadWString = (.bareFalse, it) ∨
      it.ReadWString = (.bareFalse, { it with readPtr := it.readPtr + 4 }) ∨
      (∃ r it2, it.ReadWString = (.ok r, it2)) ∨
      (∃ it2, it.ReadWString = (.decodeErr, it2)) := by
  unfold PickleIterator.ReadWString
  rcases readInt_shape it with hS | ⟨v, hS⟩ <;> rw [hS] <;> dsimp only
  · left; rfl
  · rw [if_neg (by simp)]
    rcases hG : PickleIterator.GetReadPointerAndAdvance { it with readPtr := it.readPtr + 4 } v 4
      with ⟨o2, x⟩
    cases o2 with
    | none =>
      have hx := PickleIterator.getRead_none _ v 4 x hG
      subst hx
      right; left; rfl
    | some off =>
      dsimp only
      by_cases hv : v ≠ 0
      · rw [if_pos hv]
        rcases hD : utf32Decode ((x.bytes_.drop off).take (v * 4).toNat) with _ | s
        · right; right; right; exact ⟨x, rfl⟩
        · right; right; left; exact ⟨s, x, rfl⟩
      · rw [if_neg hv]
        right; right; left
        exact ⟨[], x, rfl⟩

theorem readString16_shape (it : PickleIterator) :
    it.ReadString16 = (.bareFalse, it) ∨
      it.ReadString16 = (.bareFalse, { it with readPtr := it.readPtr + 4 }) ∨
      (∃ r it2, it.ReadString16 = (.ok r, it2)) ∨
      (∃ it2, it.ReadString16 = (.decodeErr, it2)) := by
  unfold PickleIterator.ReadString16
  rcases readInt_shape it with hS | ⟨v, hS⟩ <;> rw [hS] <;> dsimp only
  · left; rfl
  · rw [if_neg (by simp)]
    rcases hG : PickleIterator.GetReadPointerAndAdvance { it with readPtr := it.readPtr + 4 } v 2
      with ⟨o2, x⟩
    cases o2 with
    | none =>
      have hx := PickleIterator.getRead_none _ v 2 x hG
      subst hx
      right; left; rfl
    | some off =>
      dsimp only
      by_cases hv : v ≠ 0
      · rw [if_pos hv]
        rcases hD : utf16Decode ((x.bytes_.drop off).take (v * 2).toNat) with _ | s
        · right; right; right; exact ⟨x, rfl⟩
        · right; right; left; exact ⟨s, x, rfl⟩
      · rw [if_neg hv]
        right; right; left
        exact ⟨[], x, rfl⟩

/-- Claim C2 (amended): when a cursor read operation returns a failure
result (as opposed to raising), the cursor position is unchanged, except
that an operation with a 4-byte length prefix (the strings, the blob
reads, ReadLength) that fails after successfully consuming its prefix
leaves the position advanced by exactly those 4 bytes. In particular
every failing fixed-width scalar read and every failing raw-bytes read
leaves the position untouched. -/
theorem c2_amended_failure_advance (op : ROp) (it it' : PickleIterator) (o : Outcome)
    (h : applyROp op it = (o, it')) (hf : o = Outcome.failv) :
    it' = it ∨ (op.hasLenPrefixRead = true ∧ it' = { it with readPtr := it.readPtr + 4 }) := by
  subst hf
  cases op with
  | bool =>
    dsimp only [applyROp, PickleIterator.ReadBool] at h
    rcases hG : it.GetReadPointerAndAdvance 1 with ⟨o2, x⟩
    rw [hG] at h
    cases o2
    · have hx := PickleIterator.getRead_none it 1 0 x hG
      subst hx
      simp at h
      exact .inl h.symm
    · simp at h
  | int =>
    dsimp only [applyROp] at h
    rcases readInt_shape it with hS | ⟨v, hS⟩ <;> rw [hS] at h <;> simp at h
    exact .inl h.symm
  | long =>
    dsimp only [applyROp, PickleIterator.ReadLong] at h
    rcases hG : it.GetReadPointerAndAdvance 4 with ⟨o2, x⟩
    rw [hG] at h
    cases o2
    · have hx := PickleIterator.getRead_none it 4 0 x hG
      subst hx
      simp at h
      exact .inl h.symm
    · simp at h
  | uint16 =>
    dsimp only [applyROp, PickleIterator.ReadUInt16] at h
    rcases hG : it.GetReadPointerAndAdvance 2 with ⟨o2, x⟩
    rw [hG] at h
    cases o2
    · have hx := PickleIterator.getRead_none it 2 0 x hG
      subst hx
      simp at h
      exact .inl h.symm
    · simp at h
  | uint32 =>
    dsimp only [applyROp, PickleIterator.ReadUInt32] at h
    rcases hG : it.GetReadPointerAndAdvance 4 with ⟨o2, x⟩
    rw [hG] at h
    cases o2
    · have hx := PickleIterator.getRead_none it 4 0 x hG
      subst hx
      simp at h
      exact .inl h.symm
    · simp at h
  | int64 =>
    dsimp only [applyROp, PickleIterator.ReadInt64] at h
    rcases hG : it.GetReadPointerAndAdvance 8 with ⟨o2, x⟩
    rw [hG] at h
    cases o2
    · have hx := PickleIterator.getRead_none it 8 0 x hG
      subst hx
      simp at h
      exact .inl h.symm
    · simp at h
  | uint64 =>
    dsimp only [applyROp, PickleIterator.ReadUInt64] at h
    rcases hG : it.GetReadPointerAndAdvance 8 with ⟨o2, x⟩
    rw [hG] at h
    cases o2
    · have hx := PickleIterator.getRead_none it 8 0 x hG
      subst hx
      simp at h
      exact .inl h.symm
    · simp at h
  | skip n =>
    dsimp only [applyROp, PickleIterator.SkipBytes] at h
    rcases hG : it.GetReadPointerAndAdvance n with ⟨o2, x⟩
    rw [hG] at h
    cases o2
    · have hx := PickleIterator.getRead_none it n 0 x hG
      subst hx
      simp at h
      exact .inl h.symm
    · simp at h
  | length =>
    dsimp only [applyROp, PickleIterator.ReadLength] at h
    rcases readInt_shape it with hS | ⟨v, hS⟩ <;> rw [hS] at h <;> simp at h
    · exact .inl h.symm
    · exact .inr ⟨rfl, h.2.symm⟩
  | binaryString =>
    dsimp only [applyROp] at h
    rcases readBinaryString_shape it with hS | hS | ⟨r, it2, hS⟩ <;> rw [hS] at h <;> simp at h
    · exact .inl h.symm
    · exact .inr ⟨rfl, h.symm⟩
  | str =>
    dsimp only [applyROp] at h
    rcases readString_shape it with hS | hS | ⟨r, it2, hS⟩ | ⟨it2, hS⟩ <;> rw [hS] at h <;>
      simp at h
    · exact .inl h.symm
    · exact .inr ⟨rfl, h.symm⟩
  | wstr =>
    dsimp only [applyROp] at h
    rcases readWString_shape it with hS | hS | ⟨r, it2, hS⟩ | ⟨it2, hS⟩ <;> rw [hS] at h <;>
      simp at h
    · exact .inl h.symm
    · exact .inr ⟨rfl, h.symm⟩
  | str16 =>
    dsimp only [applyROp] at h
    rcases readString16_shape it with hS | hS | ⟨r, it2, hS⟩ | ⟨it2, hS⟩ <;> rw [hS] at h <;>
      simp at h
    · exact .inl h.symm
    · exact .inr ⟨rfl, h.symm⟩
  | rawBytes n =>
    dsimp only [applyROp] at h
    rcases readBytes_shape it n (by simp) with hS | ⟨d, it2, hS⟩ <;> rw [hS] at h <;> simp at h
    exact .inl h.symm
  | data =>
    dsimp only [applyROp, PickleIterator.ReadData] at h
    rcases readLength_shape it with hS | ⟨v, hv, hS⟩ | ⟨v, hv, hS⟩ <;> rw [hS] at h <;>
      dsimp only at h
    · simp at h
      exact .inl h.symm
    · simp at h
      exact .inr ⟨rfl, h.symm⟩
    · rw [if_neg (by simp)] at h
      rcases readBytes_shape { it with readPtr := it.readPtr + 4 } v hv with hB | ⟨d, it2, hB⟩ <;>
        rw [hB] at h <;> simp at h
      exact .inr ⟨rfl, h.symm⟩

/-- Claim C2 (counterexample): ReadLength on a cursor whose 4 bytes
decode to -1 returns a failure result, yet the cursor position moves
from 0 to 4, so a failing read does not always leave the position
unchanged. -/
theorem c2_counterexample :
    (PickleIterator.ofWrap (PickleWrap.ofBytes [4, 0, 0, 0, 255, 255, 255, 255])).ReadLength =
      ((false, -1), { bytes_ := [255, 255, 255, 255], readPtr := 4 }) ∧
    (PickleIterator.ofWrap (PickleWrap.ofBytes [4, 0, 0, 0, 255, 255, 255, 255])).readPtr = 0 := by
  constructor
  · decide
  · decide

/-- Claim C2 (witness): the amended statement instantiated on a failing
ReadInt over an empty payload, whose position stays at 0. -/
theorem c2_amended_failure_advance_witness :
    ({ bytes_ := [], readPtr := 0 } : PickleIterator) = { bytes_ := [], readPtr := 0 } ∨
      (ROp.int.hasLenPrefixRead = true ∧
        ({ bytes_ := [], readPtr := 0 } : PickleIterator) =
          { bytes_ := ([] : List Nat), readPtr := 0 + 4 }) :=
  c2_amended_failure_advance .int { bytes_ := [], readPtr := 0 } { bytes_ := [], readPtr := 0 }
    .failv rfl rfl

/-- Claim C1: evaluation at the failing input. Writing the one-char
string "a" (code point 97) to a fresh owned Pickle with the UTF-16
writer and reading it back with ReadString16 succeeds but yields
"a\x00" (the writer stores the encoded byte count, the reader
multiplies the prefix by the element width); the UTF-32 pair
WriteWString/ReadWString likewise returns "a" followed by three NUL
characters, while the UTF-8 pair round-trips correctly. The UTF-16 and
UTF-32 round trips therefore do not yield the original string. -/
theorem c1_roundtrip_failing_eval :
    (Pickle.empty.WriteString16 [97]).map
        (fun p => ((PickleIterator.ofPickle p).ReadString16).1) = .ok (.ok [97, 0]) ∧
    (Pickle.empty.WriteWString [97]).map
        (fun p => ((PickleIterator.ofPickle p).ReadWString).1) = .ok (.ok [97, 0, 0, 0]) ∧
    (Pickle.empty.WriteString [97]).map
        (fun p => ((PickleIterator.ofPickle p).ReadString).1) = .ok (.ok [97]) ∧
    ([97, 0] : List Nat) ≠ [97] := by
  refine ⟨rfl, rfl, rfl, by decide⟩

/-- Claim C5: evaluation at the failing input. On a navigation payload
holding only the 4-byte index, reading virtual_url fails:
PickleIterator.ReadString returns a bare False instead of a tuple, so
the assignment in ReadFromPickle raises TypeError (modelled as
Except.error) instead of returning false. -/
theorem c5_readfrompickle_raises :
    TabNavigation.ReadFromPickle
        (PickleIterator.ofWrap (PickleWrap.ofBytes [4, 0, 0, 0, 0, 0, 0, 0])) =
      .error () := by
  rfl

/-- Claim C9 (counterexample): wrapping the bytes [8, 0, 0, 0] deduces
header size 4 - 8 = -4, which is negative yet 4-byte aligned under
Python's nonnegative remainder, so the validation accepts it: the
resulting buffer keeps its data and reports size 4, not 0. -/
theorem c9_counterexample :
    PickleWrap.ofBytes [8, 0, 0, 0] = { hdr := some [8, 0, 0, 0], headerSize := -4 } ∧
    (PickleWrap.ofBytes [8, 0, 0, 0]).size = 4 := by
  constructor
  · decide
  · decide

/-- Claim C9 (amended): wrapping existing bytes never raises, and
whenever the total length is below the header width, or the deduced
header size exceeds the total length or is not a multiple of 4, the
buffer is treated as empty (size 0, no data). A negative deduced header
size escapes this validation when it is a multiple of 4. -/
theorem c9_amended_wrap_validation (data : List Nat)
    (h : data.length < 4 ∨ (data.length : Int) - readLE data 0 4 > (data.length : Int) ∨
      ((data.length : Int) - readLE data 0 4) % 4 ≠ 0) :
    (PickleWrap.ofBytes data).size = 0 ∧ (PickleWrap.ofBytes data).hdr = none := by
  unfold PickleWrap.ofBytes
  dsimp only
  split_ifs <;>
    first
      | exact ⟨rfl, rfl⟩
      | (exfalso; unfold AlignInt at *; omega)

/-- Claim C9 (witness): the amended statement at a 1-byte input. -/
theorem c9_amended_wrap_validation_witness :
    (PickleWrap.ofBytes [1]).size = 0 ∧ (PickleWrap.ofBytes [1]).hdr = none :=
  c9_amended_wrap_validation [1] (Or.inl (by decide))

theorem endWrite_field (p : Pickle) (dest len : Nat) :
    (p.EndWrite dest len).payloadSizeField = p.payloadSizeField := by
  unfold Pickle.EndWrite
  split <;> rfl

theorem writeBytes_field (p : Pickle) (d : List Nat) (len : Nat) (p' : Pickle)
    (h : p.WriteBytes d len = .ok p') :
    p'.payloadSizeField = alignNat p.payloadSizeField 4 + len := by
  unfold Pickle.WriteBytes Pickle.BeginWrite at h
  dsimp only at h
  split at h
  · simp at h
  · next dest p1 heq =>
    split_ifs at heq
    · cases heq
      cases h
      rw [endWrite_field]
    · cases heq
      cases h
      rw [endWrite_field]

theorem applyWOp_field (op : WOp) (q p' : Pickle) (h : applyWOp op q = .ok p') :
    ∃ m, p'.payloadSizeField = alignNat m 4 + op.lastRawLen := by
  cases op with
  | wbool b =>
    dsimp only [applyWOp, Pickle.WriteBool, Pickle.WriteInt] at h
    split at h <;> exact ⟨q.payloadSizeField, writeBytes_field q _ 4 p' h⟩
  | wint n =>
    dsimp only [applyWOp, Pickle.WriteInt] at h
    split at h
    · simp at h
    · exact ⟨q.payloadSizeField, writeBytes_field q _ 4 p' h⟩
  | wuint16 n =>
    dsimp only [applyWOp, Pickle.WriteUInt16] at h
    split at h
    · simp at h
    · exact ⟨q.payloadSizeField, writeBytes_field q _ 2 p' h⟩
  | wuint32 n =>
    dsimp only [applyWOp, Pickle.WriteUInt32] at h
    split at h
    · simp at h
    · exact ⟨q.payloadSizeField, writeBytes_field q _ 4 p' h⟩
  | wint64 n =>
    dsimp only [applyWOp, Pickle.WriteInt64] at h
    split at h
    · simp at h
    · exact ⟨q.payloadSizeField, writeBytes_field q _ 8 p' h⟩
  | wuint64 n =>
    dsimp only [applyWOp, Pickle.WriteUInt64] at h
    split at h
    · simp at h
    · exact ⟨q.payloadSizeField, writeBytes_field q _ 8 p' h⟩
  | wstr s =>
    dsimp only [applyWOp, Pickle.WriteString] at h
    rcases hI : q.WriteInt (utf8Encode s).length with e | p1 <;> rw [hI] at h
    · simp at h
    · exact ⟨p1.payloadSizeField, writeBytes_field p1 _ _ p' h⟩
  | wwstr s =>
    dsimp only [applyWOp, Pickle.WriteWString] at h
    rcases hI : q.WriteInt (utf32Encode s).length with e | p1 <;> rw [hI] at h
    · simp at h
    · exact ⟨p1.payloadSizeField, writeBytes_field p1 _ _ p' h⟩
  | wstr16 s =>
    dsimp only [applyWOp, Pickle.WriteString16] at h
    rcases hI : q.WriteInt (utf16Encode s).length with e | p1 <;> rw [hI] at h
    · simp at h
    · exact ⟨p1.payloadSizeField, writeBytes_field p1 _ _ p' h⟩
  | wdata d n =>
    dsimp only [applyWOp, Pickle.WriteData] at h
    rcases hI : q.WriteInt n with e | p1 <;> rw [hI] at h
    · simp at h
    · exact ⟨p1.payloadSizeField, writeBytes_field p1 _ _ p' h⟩
  | wbytes d n =>
    dsimp only [applyWOp] at h
    exact ⟨q.payloadSizeField, writeBytes_field q _ _ p' h⟩

theorem applyWOps_append (l : List WOp) (op : WOp) (p p' : Pickle)
    (h : applyWOps (l ++ [op]) p = .ok p') :
    ∃ q, applyWOps l p = .ok q ∧ applyWOp op q = .ok p' := by
  induction l generalizing p with
  | nil =>
    dsimp only [applyWOps] at h
    rcases hO : applyWOp op p with e | q <;> rw [hO] at h
    · simp at h
    · dsimp only [applyWOps] at h
      cases h
      exact ⟨p, rfl, hO⟩
  | cons o rest ih =>
    dsimp only [applyWOps] at h ⊢
    rcases hO : applyWOp o p with e | q <;> rw [hO] at h
    · simp at h
    · exact ih q h

/-- Claim C4 (amended): after any nonempty sequence of writes on a
fresh owned Pickle, the stored payload-size field equals the 4-byte
aligned end of the earlier data plus the raw byte length of the final
primitive write; it is a multiple of 4 exactly when that final raw
length is, so a trailing uint16 or odd-length string leaves a
non-multiple (the data itself is still zero-padded to a 4-byte
boundary in the buffer). -/
theorem c4_amended_payload_size (ops : List WOp) (op : WOp) (p' : Pickle)
    (h : applyWOps (ops ++ [op]) Pickle.empty = .ok p') :
    p'.payloadSizeField % 4 = op.lastRawLen % 4 := by
  obtain ⟨q, hq, hO⟩ := applyWOps_append ops op Pickle.empty p' h
  obtain ⟨m, hm⟩ := applyWOp_field op q p' hO
  have := alignNat_mod m
  omega

/-- Claim C4 (counterexample): a single WriteUInt16 on a fresh owned
Pickle leaves the stored payload length at 2, which is not a multiple
of 4. -/
theorem c4_counterexample :
    applyWOps [WOp.wuint16 5] Pickle.empty = .ok pickleAfterU16 ∧
    pickleAfterU16.payloadSizeField = 2 ∧ pickleAfterU16.payloadSizeField % 4 ≠ 0 := by
  refine ⟨rfl, rfl, by decide⟩

/-- Claim C4 (witness): the amended statement at the single-write
sequence WriteUInt16 5. -/
theorem c4_amended_payload_size_witness :
    pickleAfterU16.payloadSizeField % 4 = WOp.lastRawLen (.wuint16 5) % 4 :=
  c4_amended_payload_size [] (.wuint16 5) pickleAfterU16 rfl

theorem readInt_fail_of_short (it : PickleIterator)
    (h : (it.readEnd : Int) - it.readPtr < 4) : it.ReadInt = ((false, 0), it) := by
  unfold PickleIterator.ReadInt PickleIterator.GetReadPointerAndAdvance
  rw [if_pos (Or.inr (by simpa [PickleIterator.effBytes] using h))]

/-- Claim C6 (amended): a navigation payload on which the five
mandatory reads succeed and after which fewer than 4 bytes remain (so
the optional type_mask read fails) decodes successfully: the record
carries the five read values and every remaining field keeps its
default, in particular has_post_data_ = 0 (False), referrer_ = none and
is_overriding_user_agent_ = false, while original_request_url_ is left
unset (None) rather than set to an empty string. -/
theorem c6_amended_five_fields_defaults (it0 it1 it2 it3 it4 it5 : PickleIterator)
    (idx tt : Int) (vu t cs : List Nat)
    (h1 : it0.ReadInt = ((true, idx), it1))
    (h2 : it1.ReadString = (.ok vu, it2))
    (h3 : it2.ReadString16 = (.ok t, it3))
    (h4 : it3.ReadBinaryString = (.ok cs, it4))
    (h5 : it4.ReadInt = ((true, tt), it5))
    (h6 : (it5.readEnd : Int) - it5.readPtr < 4) :
    TabNavigation.ReadFromPickle it0 =
      .ok ((true, { index_ := idx, virtual_url_ := some vu, title_ := some t,
                    content_state_ := some cs, transition_type_ := tt }), it5) := by
  unfold TabNavigation.ReadFromPickle
  rw [h1]
  dsimp only
  rw [if_neg (by simp)]
  rw [h2]
  dsimp only
  rw [h3]
  dsimp only
  rw [h4]
  dsimp only
  rw [h5]
  dsimp only
  rw [if_neg (by simp)]
  rw [readInt_fail_of_short it5 h6]
  rfl

/-- Claim C6 (counterexample): on the concrete payload holding exactly
the five mandatory fields, the decoded record's original_request_url_
is None, not the empty string. -/
theorem c6_counterexample :
    TabNavigation.ReadFromPickle
        (PickleIterator.ofWrap (PickleWrap.ofBytes navFiveFieldBlock)) =
      .ok ((true, navFiveFieldRecord), { bytes_ := navFiveFieldPayload, readPtr := 20 }) ∧
    navFiveFieldRecord.original_request_url_ = none ∧
    navFiveFieldRecord.original_request_url_ ≠ some [] := by
  refine ⟨rfl, rfl, by decide⟩

/-- Claim C6 (witness): the amended statement at the concrete
five-field payload. -/
theorem c6_amended_five_fields_defaults_witness :
    TabNavigation.ReadFromPickle { bytes_ := navFiveFieldPayload, readPtr := 0 } =
      .ok ((true, { index_ := 0, virtual_url_ := some [], title_ := some [],
                    content_state_ := some [], transition_type_ := 0 }),
        { bytes_ := navFiveFieldPayload, readPtr := 20 }) :=
  c6_amended_five_fields_defaults
    { bytes_ := navFiveFieldPayload, readPtr := 0 }
    { bytes_ := navFiveFieldPayload, readPtr := 4 }
    { bytes_ := navFiveFieldPayload, readPtr := 8 }
    { bytes_ := navFiveFieldPayload, readPtr := 12 }
    { bytes_ := navFiveFieldPayload, readPtr := 16 }
    { bytes_ := navFiveFieldPayload, readPtr := 20 }
    0 0 [] [] [] rfl rfl rfl rfl rfl (by decide)

/-- Claim C7: a file whose 8-byte header carries a signature other than
kFileSignature or a version other than kFileCurrentVersion makes Read
return success false and no commands. -/
theorem c7_bad_header_rejected (file : List Nat) (h8 : 8 ≤ file.length)
    (hbad : readLE file 0 4 ≠ kFileSignature ∨ readLE file 4 4 ≠ kFileCurrentVersion) :
    SessionFileReader.Read file = .ok (false, []) := by
  unfold SessionFileReader.Read
  dsimp only
  rw [if_neg (by omega : ¬(min 8 file.length ≠ 8))]
  rw [if_pos hbad]

/-- Claim C7 (witness): a header with signature 0xDEADBEEF and version
1 is rejected. -/
theorem c7_bad_header_rejected_witness :
    SessionFileReader.Read [0xEF, 0xBE, 0xAD, 0xDE, 1, 0, 0, 0] = .ok (false, []) :=
  c7_bad_header_rejected [0xEF, 0xBE, 0xAD, 0xDE, 1, 0, 0, 0] (by decide)
    (Or.inl (by decide))

theorem window_length (st : RState) (h : st.pos + st.avail ≤ st.buffer.length) :
    ((st.buffer.drop st.pos).take st.avail).length = st.avail := by
  simp [List.length_take, List.length_drop]
  omega

theorem stream_length (st : RState) (h : st.pos + st.avail ≤ st.buffer.length) :
    st.stream.length = st.avail + st.file.length := by
  unfold RState.stream
  rw [List.length_append, window_length st h]

theorem stream_take_avail (st : RState) (h : st.pos + st.avail ≤ st.buffer.length) :
    st.stream.take st.avail = (st.buffer.drop st.pos).take st.avail := by
  unfold RState.stream
  rw [List.take_append_eq_append_take, window_length st h]
  simp

theorem stream_getD (st : RState) (i : Nat) (hi : i < st.avail)
    (h : st.pos + st.avail ≤ st.buffer.length) :
    st.stream.getD i 0 = st.buffer.getD (st.pos + i) 0 := by
  unfold RState.stream
  rw [List.getD_append _ _ _ _ (by rw [window_length st h]; exact hi)]
  rw [List.getD_eq_getElem?_getD, List.getD_eq_getElem?_getD]
  rw [List.getElem?_take, if_pos hi, List.getElem?_drop]

theorem readLE_two (l : List Nat) (off : Nat) :
    readLE l off 2 = l.getD off 0 + 256 * l.getD (off + 1) 0 := by
  simp [readLE]

theorem stream_consume (st : RState) (j : Nat) (hj : j ≤ st.avail)
    (h : st.pos + st.avail ≤ st.buffer.length) :
    RState.stream { st with pos := st.pos + j, avail := st.avail - j } = st.stream.drop j := by
  unfold RState.stream
  rw [List.drop_append_of_le_length (by rw [window_length st h]; exact hj)]
  congr 1
  rw [List.drop_take, List.drop_drop]

theorem shiftBuf_length (st : RState) (h : st.pos + st.avail ≤ st.buffer.length) :
    (shiftBuf st).length = st.buffer.length := by
  unfold shiftBuf
  split
  · simp [List.length_take, List.length_drop]
    omega
  · rfl

theorem shiftBuf_take (st : RState) (h : st.pos + st.avail ≤ st.buffer.length) :
    (shiftBuf st).take st.avail = (st.buffer.drop st.pos).take st.avail := by
  unfold shiftBuf
  split
  · rw [List.take_append_eq_append_take, window_length st h]
    simp
  · next hc =>
    by_cases ha : st.avail = 0
    · simp [ha]
    · have hp : st.pos = 0 := by
        rcases Decidable.not_and_iff_or_not.mp hc with h' | h' <;> omega
      rw [hp]
      simp

theorem fillBuffer_spec (st : RState) (hinv : RInv st)
    (hlt : st.avail < st.buffer.length) :
    ∃ st', FillBuffer st =
        .ok (decide (min (st.buffer.length - st.avail) st.file.length ≠ 0), st') ∧
      st'.stream = st.stream ∧ st'.buffer.length = st.buffer.length ∧
      st'.pos = 0 ∧ st'.avail = min st.buffer.length st.stream.length ∧ RInv st' := by
  obtain ⟨h1, h2⟩ := hinv
  have hbl := shiftBuf_length st h1
  have hbt := shiftBuf_take st h1
  have hwl := window_length st h1
  have hsl := stream_length st h1
  unfold FillBuffer
  rw [if_neg (by omega)]
  dsimp only
  rw [hbl]
  set k := min (st.buffer.length - st.avail) st.file.length with hk
  have hkf : k ≤ st.file.length := by omega
  have hkb : st.avail + k ≤ st.buffer.length := by omega
  refine ⟨_, rfl, ?_, ?_, rfl, ?_, ?_, ?_⟩
  · unfold RState.stream
    dsimp only
    rw [List.drop_zero]
    have hlx : ((shiftBuf st).take st.avail ++ st.file.take k).length = st.avail + k := by
      simp [List.length_take, List.length_append]
      omega
    rw [List.append_assoc ((shiftBuf st).take st.avail) (st.file.take k) _]
    rw [← List.append_assoc ((shiftBuf st).take st.avail) (st.file.take k) _]
    rw [← hlx, List.take_left]
    rw [hbt]
    rw [List.append_assoc, List.take_append_drop]
  · dsimp only
    simp [List.length_take, List.length_drop, List.length_append]
    omega
  · dsimp only
    omega
  · dsimp only
    simp [List.length_take, List.length_drop, List.length_append]
    omega
  · dsimp only
    simp [List.length_take, List.length_drop, List.length_append]
    omega

theorem stream_getD0 (st : RState) (h0 : 0 < st.avail)
    (h : st.pos + st.avail ≤ st.buffer.length) :
    st.buffer.getD st.pos 0 = st.stream.getD 0 0 := by
  have := stream_getD st 0 h0 h
  simpa using this.symm

theorem stream_getD1 (st : RState) (h1a : 1 < st.avail)
    (h : st.pos + st.avail ≤ st.buffer.length) :
    st.buffer.getD (st.pos + 1) 0 = st.stream.getD 1 0 := by
  exact (stream_getD st 1 h1a h).symm

theorem window_slice (st : RState) (s : Nat) (hs1 : 1 ≤ s) (hs : s ≤ st.avail)
    (h : st.pos + st.avail ≤ st.buffer.length) :
    (st.buffer.drop (st.pos + 1)).take (s - 1) = (st.stream.drop 1).take (s - 1) := by
  unfold RState.stream
  rw [List.drop_append_of_le_length (by rw [window_length st h]; omega)]
  rw [List.take_append_eq_append_take]
  have hl : ((st.buffer.drop st.pos).take st.avail |>.drop 1).length = st.avail - 1 := by
    rw [List.length_drop, window_length st h]
  rw [hl, show s - 1 - (st.avail - 1) = 0 from by omega]
  rw [List.take_zero, List.append_nil]
  rw [List.drop_take, List.take_take, min_eq_left (by omega), List.drop_drop]

theorem readCommandFinish_frame (st1 : RState) (id : Nat) (cts rest : List Nat)
    (hinv1 : RInv st1) (hstream1 : st1.stream = id :: (cts ++ rest))
    (hav : cts.length + 1 ≤ st1.avail) :
    ∃ st', ReadCommandFinish (cts.length + 1) st1 = (some (expectedCommand (id, cts)), st') ∧
      RInv st' ∧ st'.stream = rest := by
  obtain ⟨h1, h2⟩ := hinv1
  have hid : st1.buffer.getD st1.pos 0 = id := by
    rw [stream_getD0 st1 (by omega) h1, hstream1]
    rfl
  refine ⟨{ st1 with pos := st1.pos + (cts.length + 1), avail := st1.avail - (cts.length + 1) },
    ?_, ⟨by dsimp only; omega, by dsimp only; omega⟩, ?_⟩
  · unfold ReadCommandFinish
    dsimp only
    rw [hid]
    congr 1
    by_cases hc : cts.length = 0
    · rw [if_neg (by omega), expectedCommand, if_pos hc]
    · rw [if_pos (by omega), expectedCommand, if_neg hc]
      have hws := window_slice st1 (cts.length + 1) (by omega) hav h1
      simp only [Nat.add_sub_cancel] at hws
      simp only [Nat.add_sub_cancel]
      rw [hws, hstream1, List.drop_one, List.tail_cons, List.take_left]
  · rw [stream_consume st1 (cts.length + 1) hav h1, hstream1]
    rw [List.drop_succ_cons, List.drop_left]

theorem grow_stream (st : RState) (B : List Nat) (h : st.pos + st.avail ≤ st.buffer.length) :
    RState.stream { st with buffer := st.buffer ++ B } = st.stream := by
  unfold RState.stream
  dsimp only
  congr 1
  rw [List.drop_append_of_le_length (by omega)]
  rw [List.take_append_eq_append_take]
  rw [List.length_drop, show st.avail - (st.buffer.length - st.pos) = 0 from by omega]
  rw [List.take_zero, List.append_nil]

theorem fill_then_finish (st2 : RState) (id : Nat) (cts rest : List Nat)
    (hpa : st2.pos + st2.avail ≤ st2.buffer.length)
    (h1024 : 1024 ≤ st2.buffer.length)
    (hbuf : cts.length + 1 ≤ st2.buffer.length)
    (hstream2 : st2.stream = id :: (cts ++ rest))
    (havlt : st2.avail < cts.length + 1) :
    ∃ ok st3, FillBuffer st2 = .ok (ok, st3) ∧ ok = true ∧
      ¬(cts.length + 1 > st3.avail) ∧
      ∃ st', ReadCommandFinish (cts.length + 1) st3 = (some (expectedCommand (id, cts)), st') ∧
        RInv st' ∧ st'.stream = rest := by
  have hsl2 := stream_length st2 hpa
  have hlen2 : st2.stream.length = cts.length + 1 + rest.length := by
    rw [hstream2]
    simp
    omega
  obtain ⟨st3, hfb, hs3, hbl3, hp3, ha3, hinv3⟩ := fillBuffer_spec st2 ⟨hpa, h1024⟩ (by omega)
  refine ⟨_, st3, hfb, ?_, ?_, ?_⟩
  · apply decide_eq_true
    omega
  · omega
  · exact readCommandFinish_frame st3 id cts rest hinv3 (hs3.trans hstream2) (by omega)

theorem readCommandSized_frame (st : RState) (id : Nat) (cts rest : List Nat)
    (hinv : RInv st) (hstream : st.stream = encodeFrame (id, cts) ++ rest)
    (hsz : cts.length + 1 < 65536) (hav2 : 2 ≤ st.avail) :
    ∃ st', ReadCommandSized st = .ok (some (expectedCommand (id, cts)), st') ∧
      RInv st' ∧ st'.stream = rest := by
  obtain ⟨h1, h2⟩ := hinv
  have hstreamc : st.stream =
      (cts.length + 1) % 256 :: (cts.length + 1) / 256 :: (id :: (cts ++ rest)) := by
    rw [hstream]
    simp [encodeFrame]
  have hsize : readLE st.buffer st.pos 2 = cts.length + 1 := by
    rw [readLE_two, stream_getD0 st (by omega) h1, stream_getD1 st (by omega) h1, hstreamc]
    show (cts.length + 1) % 256 + 256 * ((cts.length + 1) / 256) = cts.length + 1
    omega
  have h1' : st.pos + 2 + (st.avail - 2) ≤ st.buffer.length := by omega
  have hstream1 : RState.stream { st with pos := st.pos + 2, avail := st.avail - 2 } =
      id :: (cts ++ rest) := by
    rw [stream_consume st 2 hav2 h1, hstreamc]
    rfl
  unfold ReadCommandSized
  rw [hsize]
  dsimp only
  rw [if_neg (by omega : ¬(cts.length + 1 = 0))]
  by_cases hbig : cts.length + 1 > st.avail - 2
  · rw [if_pos hbig]
    by_cases hgrow : cts.length + 1 > st.buffer.length
    · rw [if_pos hgrow]
      have hpa2 : st.pos + 2 + (st.avail - 2) ≤
          (st.buffer ++ List.replicate (cts.length + 1 + kFileReadBufferSize - st.buffer.length) 0).length := by
        simp [List.length_append]
        omega
      have hstream2 : RState.stream { st with
          pos := st.pos + 2, avail := st.avail - 2,
          buffer := st.buffer ++ List.replicate (cts.length + 1 + kFileReadBufferSize - st.buffer.length) 0 } =
          id :: (cts ++ rest) := by
        have := grow_stream { st with pos := st.pos + 2, avail := st.avail - 2 }
          (List.replicate (cts.length + 1 + kFileReadBufferSize - st.buffer.length) 0) h1'
        exact this.trans hstream1
      obtain ⟨ok, st3, hfb, hok, hb3, st', hrcf, hinv', hs'⟩ :=
        fill_then_finish { st with
            pos := st.pos + 2, avail := st.avail - 2,
            buffer := st.buffer ++ List.replicate (cts.length + 1 + kFileReadBufferSize - st.buffer.length) 0 }
          id cts rest hpa2
          (by simp [List.length_append]; omega)
          (by simp [List.length_append, kFileReadBufferSize]; omega)
          hstream2 (by dsimp only; omega)
      rw [hfb]
      subst hok
      dsimp only
      rw [if_neg (by simp), if_neg hb3, hrcf]
      exact ⟨st', rfl, hinv', hs'⟩
    · rw [if_neg hgrow]
      obtain ⟨ok, st3, hfb, hok, hb3, st', hrcf, hinv', hs'⟩ :=
        fill_then_finish { st with pos := st.pos + 2, avail := st.avail - 2 }
          id cts rest h1' (by dsimp only; omega) (by dsimp only; omega)
          hstream1 (by dsimp only; omega)
      rw [hfb]
      subst hok
      dsimp only
      rw [if_neg (by simp), if_neg hb3, hrcf]
      exact ⟨st', rfl, hinv', hs'⟩
  · rw [if_neg hbig]
    obtain ⟨st', hrcf, hinv', hs'⟩ :=
      readCommandFinish_frame { st with pos := st.pos + 2, avail := st.avail - 2 }
        id cts rest ⟨h1', by dsimp only; omega⟩ hstream1 (by dsimp only; omega)
    rw [hrcf]
    exact ⟨st', rfl, hinv', hs'⟩

theorem readCommand_frame (st : RState) (id : Nat) (cts rest : List Nat)
    (hinv : RInv st) (hstream : st.stream = encodeFrame (id, cts) ++ rest)
    (hsz : cts.length + 1 < 65536) :
    ∃ st', ReadCommand st = .ok (some (expectedCommand (id, cts)), st') ∧
      RInv st' ∧ st'.stream = rest := by
  obtain ⟨h1, h2⟩ := hinv
  have hlen : st.stream.length = cts.length + 3 + rest.length := by
    rw [hstream]
    simp [encodeFrame]
    omega
  have hsl := stream_length st h1
  unfold ReadCommand
  by_cases hav : st.avail < 2
  · rw [if_pos hav]
    obtain ⟨st1, hfb, hs1, hbl1, hp1, ha1, hinv1⟩ := fillBuffer_spec st ⟨h1, h2⟩ (by omega)
    rw [hfb]
    have hok : decide (min (st.buffer.length - st.avail) st.file.length ≠ 0) = true := by
      apply decide_eq_true
      omega
    rw [hok]
    dsimp only
    rw [if_neg (by simp)]
    rw [if_neg (by omega : ¬(st1.avail < 2))]
    exact readCommandSized_frame st1 id cts rest hinv1 (hs1.trans hstream) hsz (by omega)
  · rw [if_neg hav]
    exact readCommandSized_frame st id cts rest ⟨h1, h2⟩ hstream hsz (by omega)

theorem readCommandSized_stop (st : RState) (hinv : RInv st) (hav2 : 2 ≤ st.avail)
    (hbad : BadTail st.stream) :
    ∃ st', ReadCommandSized st = .ok (none, st') := by
  obtain ⟨h1, h2⟩ := hinv
  obtain ⟨hlen2, hb0, hb1, hcase⟩ := hbad
  have hsize : readLE st.buffer st.pos 2 = st.stream.getD 0 0 + 256 * st.stream.getD 1 0 := by
    rw [readLE_two, stream_getD0 st (by omega) h1, stream_getD1 st (by omega) h1]
  have hsl := stream_length st h1
  unfold ReadCommandSized
  rw [hsize]
  dsimp only
  set s := st.stream.getD 0 0 + 256 * st.stream.getD 1 0 with hsdef
  by_cases hs0 : s = 0
  · rw [if_pos hs0]
    exact ⟨_, rfl⟩
  · rw [if_neg hs0]
    have htr : st.stream.length - 2 < s := by
      rcases hcase with hc | hc
      · exact absurd hc hs0
      · exact hc
    rw [if_pos (by omega)]
    have h1' : st.pos + 2 + (st.avail - 2) ≤ st.buffer.length := by omega
    have hst1 : RState.stream { st with pos := st.pos + 2, avail := st.avail - 2 } =
        st.stream.drop 2 := stream_consume st 2 hav2 h1
    by_cases hgrow : s > st.buffer.length
    · rw [if_pos hgrow]
      have hstream2 : RState.stream { st with
              pos := st.pos + 2, avail := st.avail - 2,
              buffer := st.buffer ++ List.replicate (s + kFileReadBufferSize - st.buffer.length) 0 } =
          st.stream.drop 2 := by
        have := grow_stream { st with pos := st.pos + 2, avail := st.avail - 2 }
          (List.replicate (s + kFileReadBufferSize - st.buffer.length) 0) h1'
        exact this.trans hst1
      obtain ⟨st3, hfb, hs3, hbl3, hp3, ha3, hinv3⟩ := fillBuffer_spec
        { st with
            pos := st.pos + 2, avail := st.avail - 2,
            buffer := st.buffer ++ List.replicate (s + kFileReadBufferSize - st.buffer.length) 0 }
        ⟨by dsimp only; simp [List.length_append]; omega,
         by dsimp only; simp [List.length_append]; omega⟩
        (by dsimp only; simp [List.length_append]; omega)
      have hl2 : (RState.stream { st with
              pos := st.pos + 2, avail := st.avail - 2,
              buffer := st.buffer ++ List.replicate (s + kFileReadBufferSize - st.buffer.length) 0 }).length =
          st.stream.length - 2 := by
        rw [hstream2]
        simp
      rw [hfb]
      dsimp only at ha3 ⊢
      by_cases hC : min ((st.buffer ++
          List.replicate (s + kFileReadBufferSize - st.buffer.length) 0).length - (st.avail - 2))
          st.file.length ≠ 0
      · rw [decide_eq_true hC]
        rw [if_neg (by simp)]
        rw [if_pos (by omega)]
        exact ⟨st3, rfl⟩
      · rw [decide_eq_false hC]
        rw [if_pos rfl]
        exact ⟨st3, rfl⟩
    · rw [if_neg hgrow]
      obtain ⟨st3, hfb, hs3, hbl3, hp3, ha3, hinv3⟩ := fillBuffer_spec
        { st with pos := st.pos + 2, avail := st.avail - 2 }
        ⟨by dsimp only; omega, by dsimp only; omega⟩
        (by dsimp only; omega)
      have hl2 : (RState.stream { st with pos := st.pos + 2, avail := st.avail - 2 }).length =
          st.stream.length - 2 := by
        rw [hst1]
        simp
      rw [hfb]
      dsimp only at ha3 ⊢
      by_cases hC : min (st.buffer.length - (st.avail - 2)) st.file.length ≠ 0
      · rw [decide_eq_true hC]
        rw [if_neg (by simp)]
        rw [if_pos (by omega)]
        exact ⟨st3, rfl⟩
      · rw [decide_eq_false hC]
        rw [if_pos rfl]
        exact ⟨st3, rfl⟩

theorem readCommand_stop (st : RState) (hinv : RInv st) (hbad : BadTail st.stream) :
    ∃ st', ReadCommand st = .ok (none, st') := by
  obtain ⟨h1, h2⟩ := hinv
  have hsl := stream_length st h1
  have hlen2 := hbad.1
  unfold ReadCommand
  by_cases hav : st.avail < 2
  · rw [if_pos hav]
    obtain ⟨st1, hfb, hs1, hbl1, hp1, ha1, hinv1⟩ := fillBuffer_spec st ⟨h1, h2⟩ (by omega)
    rw [hfb]
    by_cases hC : min (st.buffer.length - st.avail) st.file.length ≠ 0
    · rw [decide_eq_true hC]
      dsimp only
      rw [if_neg (by simp)]
      rw [if_neg (by omega : ¬(st1.avail < 2))]
      exact readCommandSized_stop st1 hinv1 (by omega) (by rw [hs1]; exact hbad)
    · rw [decide_eq_false hC]
      dsimp only
      rw [if_pos rfl]
      exact ⟨st1, rfl⟩
  · rw [if_neg hav]
    exact readCommandSized_stop st ⟨h1, h2⟩ (by omega) hbad

theorem encodeFrames_cons (f : Command) (fs : List Command) :
    encodeFrames (f :: fs) = encodeFrame f ++ encodeFrames fs := rfl

theorem readLoop_frames (frames : List Command) :
    ∀ fuel (st : RState) (acc : List Command) (tail : List Nat), RInv st →
      st.stream = encodeFrames frames ++ tail →
      WFframes frames → BadTail tail → st.stream.length < fuel →
      ReadLoop fuel st acc = .ok (true, acc ++ frames.map expectedCommand) := by
  induction frames with
  | nil =>
    intro fuel st acc tail hinv hstream hwf hbad hfuel
    cases fuel with
    | zero => omega
    | succ fl =>
      obtain ⟨st', hrc⟩ := readCommand_stop st hinv (by rw [hstream]; exact hbad)
      unfold ReadLoop
      rw [hrc]
      simp
  | cons f fs ih =>
    intro fuel st acc tail hinv hstream hwf hbad hfuel
    obtain ⟨id, cts⟩ := f
    have hwff := hwf (id, cts) (by simp)
    cases fuel with
    | zero => omega
    | succ fl =>
      obtain ⟨st', hrc, hinv', hs'⟩ := readCommand_frame st id cts (encodeFrames fs ++ tail) hinv
        (by rw [hstream, encodeFrames_cons, List.append_assoc]) hwff.2.1
      have hL : st.stream.length = cts.length + 3 + (encodeFrames fs ++ tail).length := by
        rw [hstream, encodeFrames_cons, List.append_assoc]
        simp [encodeFrame]
        omega
      have hlen' : st'.stream.length < fl := by
        rw [hs']
        omega
      unfold ReadLoop
      rw [hrc]
      have hrec := ih fl st' (acc ++ [expectedCommand (id, cts)]) tail hinv' hs'
        (fun g hg => hwf g (by simp [hg])) hbad hlen'
      dsimp only
      rw [hrec]
      simp

theorem readLE_append (A B : List Nat) (off : Nat) :
    ∀ k, off + k ≤ A.length → readLE (A ++ B) off k = readLE A off k := by
  intro k
  induction k generalizing off with
  | zero => intro _; rfl
  | succ n ihn =>
    intro hk
    unfold readLE
    rw [List.getD_append _ _ _ _ (by omega), ihn (off + 1) (by omega)]

/-- Claim C8: streaming a file made of a valid header, a sequence of
well-formed frames and a bad tail (a frame declaring size 0, or a
trailing frame whose declared size exceeds the bytes that follow it)
stops cleanly: Read returns success true together with exactly the
commands decoded from the complete frames, in file order. -/
theorem c8_truncation_clean_stop (frames : List Command) (tail : List Nat)
    (hwf : WFframes frames) (hbad : BadTail tail) :
    SessionFileReader.Read (fileHeaderBytes ++ encodeFrames frames ++ tail) =
      .ok (true, frames.map expectedCommand) := by
  have h8 : 8 ≤ (fileHeaderBytes ++ encodeFrames frames ++ tail).length := by
    simp [fileHeaderBytes]
  have hassoc : fileHeaderBytes ++ encodeFrames frames ++ tail =
      fileHeaderBytes ++ (encodeFrames frames ++ tail) := by
    rw [List.append_assoc]
  have hsig : readLE (fileHeaderBytes ++ encodeFrames frames ++ tail) 0 4 = kFileSignature := by
    rw [hassoc, readLE_append _ _ 0 4 (by simp [fileHeaderBytes])]
    decide
  have hver : readLE (fileHeaderBytes ++ encodeFrames frames ++ tail) 4 4 =
      kFileCurrentVersion := by
    rw [hassoc, readLE_append _ _ 4 4 (by simp [fileHeaderBytes])]
    decide
  have hdrop : (fileHeaderBytes ++ encodeFrames frames ++ tail).drop 8 =
      encodeFrames frames ++ tail := by
    rw [hassoc, show (8 : Nat) = fileHeaderBytes.length from rfl, List.drop_left]
  unfold SessionFileReader.Read
  rw [if_neg (by omega)]
  dsimp only
  rw [if_neg (by push_neg; exact ⟨hsig, hver⟩)]
  apply readLoop_frames frames _ _ [] tail
  · constructor
    · dsimp only
      rw [List.length_replicate]
      decide
    · dsimp only
      rw [List.length_replicate]
      decide
  · unfold RState.stream
    dsimp only
    rw [List.take_zero, List.nil_append, hdrop]
  · exact hwf
  · exact hbad
  · unfold RState.stream
    dsimp only
    rw [List.take_zero, List.nil_append, hdrop]
    have : fileHeaderBytes.length = 8 := rfl
    simp [List.length_append, this]
    omega

/-- Claim C8 (witness): a file with one complete frame followed by a
size-0 frame yields success and that single command. -/
theorem c8_truncation_clean_stop_witness :
    SessionFileReader.Read
        (fileHeaderBytes ++ encodeFrames [(6, [4, 0, 0, 0, 1, 0, 0, 0])] ++ [0, 0]) =
      .ok (true, [(6, [4, 0, 0, 0, 1, 0, 0, 0])]) := by
  have h := c8_truncation_clean_stop [(6, [4, 0, 0, 0, 1, 0, 0, 0])] [0, 0]
    (by unfold WFframes; decide) (by unfold BadTail; decide)
  simpa [expectedCommand, SessionCommand.contentsOfPickle] using h

end Chrometabs
